import Mathlib

/-!
# QcScopeShm: the shared-memory scope widget of QtCollider

A shallow embedding of `QtCollider/widgets/QcScopeShm.cpp`.

Modelling conventions

* `float` and `qreal` values are exact rationals (`ℚ`): coordinates, scales
  and samples are those of the arithmetic the code writes down, without binary
  rounding.  The one place where rounding decides which frames are read, the
  test of the inner bucket loop, is also modelled in binary32 (see below).
* `_data` is a pointer into the shared segment.  It is modelled by the samples
  readable through it, `mem : ℕ → ℚ` (offset to value), together with the
  connection that owns the segment.
* Quantities that reach the paint routines from unsigned sources
  (`_availableFrames`, `channels()`, `max_frames()`) and the size of the widget
  rectangle are natural numbers; ports, indices, intervals and the style are
  integers, as in the source.
* `QPainter` is modelled by the list of calls made on it, in call order;
  `render` replays such a list with Qt's transform rules and yields the shapes
  in device coordinates.
* The server side of the shared memory (connecting, binding a reader) is an
  environment passed to `start` and `setBufferNumber`; what the reader answers
  on a tick is passed to `updateScope`.
* Calling through a null `_shmClient` has no defined outcome; `setBufferNumber`
  returns `none` there.
* `paint1D` evaluates the test of the inner bucket loop in exact arithmetic;
  `paint1DBinary32` evaluates it in binary32, as the compiled code does, and
  also returns the offsets of `_data` that are read.  Statements that depend on
  which frames the loop reads are made about `paint1DBinary32`.
* The null pointer carries no samples: its `mem` is a placeholder, and the
  source must not read through it.
* The inner loop of the bucket decimator has no bound of its own in the source;
  it is run with a step budget (`fuel`) and returns `none` when the budget is
  exhausted.
-/

namespace QcScopeShm

/-! ## Qt value types -/

/-- A colour: `valid` is what `QColor::isValid` reports. -/
structure QColor where
  valid : Bool
  red : Nat
  green : Nat
  blue : Nat
deriving DecidableEq, Repr

/-- The constructor `QColor(r, g, b)`; it always yields a valid colour. -/
def QColor.rgb (r g b : Nat) : QColor := ⟨true, r, g, b⟩

/-- A rectangle with integer origin and non-negative size. -/
structure QRect where
  x : Int
  y : Int
  width : Nat
  height : Nat
deriving DecidableEq, Repr

/-- The method `QRect::center`: the midpoint of the first and last pixel of
each axis, with C++ integer division (rounding towards zero). -/
def QRect.center (r : QRect) : Int × Int :=
  ((r.x + (r.x + (r.width : Int) - 1)).tdiv 2, (r.y + (r.y + (r.height : Int) - 1)).tdiv 2)

/-- The part of a `QTimer` the widget uses. -/
structure QTimer where
  interval : Int
  active : Bool
deriving DecidableEq, Repr

/-! ## Shared-memory interface -/

/-- A live `server_shared_memory_client` object; `id` tells mappings apart. -/
structure ShmClient where
  id : Nat
deriving DecidableEq, Repr

/-- What the widget asks of a `scope_buffer_reader`. -/
structure ScopeReader where
  valid : Bool
  channels : Nat
  max_frames : Nat
deriving DecidableEq, Repr

/-- A `float *` into a shared segment: the owning connection (`none` for the
null pointer) and the sample readable at each offset. -/
structure FloatPtr where
  owner : Option Nat
  mem : Nat → ℚ

/-- The null pointer the constructor stores in `_data`.  It has no owner, and
its `mem` is a placeholder: the source must not read through it, and no
statement below draws a sample from it. -/
def FloatPtr.null : FloatPtr := ⟨none, fun _ => 0⟩

/-- The server as seen by `start`: `connect port` is the outcome of
`new server_shared_memory_client(port)` (`none` when the constructor throws),
`get_scope_buffer_reader` is the method of that name. -/
structure ShmEnv where
  connect : Int → Option ShmClient
  get_scope_buffer_reader : ShmClient → Int → ScopeReader

/-! ## Widget state -/

/-- The members of `QcScopeShm`, plus the widget size that `rect()` reports. -/
structure Widget where
  _srvPort : Int
  _scopeIndex : Int
  _shmClient : Option ShmClient
  _shmReader : ScopeReader
  _running : Bool
  _data : FloatPtr
  _availableFrames : Nat
  timer : QTimer
  xOffset : ℚ
  yOffset : ℚ
  xZoom : ℚ
  yZoom : ℚ
  _style : Int
  colors : List QColor
  _bkg : QColor
  width : Nat
  height : Nat

/-- The method `QWidget::rect`: always `QRect(0, 0, width, height)`. -/
def Widget.rect (s : Widget) : QRect := ⟨0, 0, s.width, s.height⟩

/-- The constructor `QcScopeShm::QcScopeShm`, for a widget of the given size.
The default-constructed reader is not valid. -/
def Widget.init (width height : Nat) : Widget where
  _srvPort := -1
  _scopeIndex := -1
  _shmClient := none
  _shmReader := ⟨false, 0, 0⟩
  _running := false
  _data := FloatPtr.null
  _availableFrames := 0
  timer := ⟨50, false⟩
  xOffset := 0
  yOffset := 0
  xZoom := 1
  yZoom := 1
  _style := 0
  colors := []
  _bkg := QColor.rgb 0 0 0
  width := width
  height := height

/-! ## Lifecycle -/

/-- The method `QcScopeShm::stop`: delete the client, stop the timer, clear
`_running`. -/
def stop (s : Widget) : Widget :=
  { s with _shmClient := none, timer := { s.timer with active := false }, _running := false }

/-- The method `QcScopeShm::connectSharedMemory`: store the new client, or the
null pointer when the constructor throws. -/
def connectSharedMemory (env : ShmEnv) (port : Int) (s : Widget) : Widget :=
  match env.connect port with
  | some client => { s with _shmClient := some client }
  | none => { s with _shmClient := none }

/-- The method `QcScopeShm::initScopeReader`. -/
def initScopeReader (env : ShmEnv) (shm : ShmClient) (index : Int) (s : Widget) : Widget :=
  { s with _shmReader := env.get_scope_buffer_reader shm index }

/-- The method `QcScopeShm::start`. -/
def start (env : ShmEnv) (s : Widget) : Widget :=
  if s._running then s
  else if s._srvPort < 0 ∨ s._scopeIndex < 0 then s
  else
    let s1 := connectSharedMemory env s._srvPort s
    match s1._shmClient with
    | none => stop s1
    | some shm =>
      let s2 := initScopeReader env shm s1._scopeIndex s1
      { s2 with timer := { s2.timer with active := true }, _running := true }

/-! ## Painter calls -/

/-- One call on the `QPainter`. -/
inductive PaintCmd where
  | fillRect (area : QRect) (c : QColor)
  | save
  | restore
  | translate (dx dy : ℚ)
  | scale (sx sy : ℚ)
  | setPen (c : QColor)
  | drawPath (pts : List (ℚ × ℚ))
  | drawLine (x1 y1 x2 y2 : ℚ)

/-- The colour of channel `ch`:
`ch < colors.count() ? colors[ch] : QColor(255,255,255)`. -/
def channelColor (colors : List QColor) (ch : Nat) : QColor :=
  if h : ch < colors.length then colors.get ⟨ch, h⟩ else QColor.rgb 255 255 255

/-- The vertices of the point-mode path: `moveTo(xOffset, frameData[0])`, then
`lineTo(xOffset + f, frameData[f])` for `f = 1 .. frameCount - 1`. -/
def pointPath (xOffset : ℚ) (frameData : Nat → ℚ) (frameCount : Nat) : List (ℚ × ℚ) :=
  (xOffset, frameData 0) ::
    (List.range' 1 (frameCount - 1)).map (fun (f : Nat) => (xOffset + (f : ℚ), frameData f))

/-- The inner loop of the bucket decimator,
`for(; f * ppf < p; ++f) { d = frameData[f]; if (d < min) min = d; else if (d > max) max = d; }`,
run for at most `fuel` iterations, with the test evaluated in exact arithmetic
(`bucketScanBinary32` below evaluates it as compiled).  It returns the frame
cursor and the running minimum and maximum on exit, or `none` when the budget
is used up. -/
def bucketScan (frameData : Nat → ℚ) (ppf : ℚ) (p : Nat) :
    Nat → Nat → ℚ → ℚ → Option (Nat × ℚ × ℚ)
  | 0, f, mn, mx => if (f : ℚ) * ppf < (p : ℚ) then none else some (f, mn, mx)
  | fuel + 1, f, mn, mx =>
    if (f : ℚ) * ppf < (p : ℚ) then
      let d := frameData f
      if d < mn then bucketScan frameData ppf p fuel (f + 1) d mx
      else if d > mx then bucketScan frameData ppf p fuel (f + 1) mn d
      else bucketScan frameData ppf p fuel (f + 1) mn mx
    else some (f, mn, mx)

/-- The loop variables of one iteration of the pixel loop: `pixel` is `p` after
its increment, `first` the frame cursor `f` when the iteration seeds
`min = max = frameData[f-1]`, `next` the cursor when the inner loop exits, and
`min`, `max` the values the line is drawn with. -/
structure Bucket where
  pixel : Nat
  first : Nat
  next : Nat
  min : ℚ
  max : ℚ

/-- The call `painter.drawLine(QLineF(pix, min, pix, max))` with `pix = p - 1`. -/
def Bucket.line (b : Bucket) : PaintCmd :=
  PaintCmd.drawLine (((b.pixel : Int) - 1 : Int) : ℚ) b.min (((b.pixel : Int) - 1 : Int) : ℚ) b.max

/-- Frame `k` is read in the iteration: it is the seed frame or one of the
frames the inner loop consumed. -/
def Bucket.covers (b : Bucket) (k : Nat) : Prop :=
  k = b.first - 1 ∨ (b.first ≤ k ∧ k < b.next)

instance (b : Bucket) (k : Nat) : Decidable (b.covers k) := by
  unfold Bucket.covers
  infer_instance

/-- The pixel loop `while (p++ < w) { ... }` of the bucket decimator.  The
first argument counts the iterations still to run (`w - p`), `p` is the pixel
counter before its increment and `f` the frame cursor.  Each iteration seeds
`min = max = frameData[f-1]`, runs the inner loop and draws one line; the
result lists the iterations in order. -/
def pixelLoop (fuel : Nat) (frameData : Nat → ℚ) (ppf : ℚ) :
    Nat → Nat → Nat → Option (List Bucket)
  | 0, _, _ => some []
  | n + 1, p, f =>
    match bucketScan frameData ppf (p + 1) fuel f (frameData (f - 1)) (frameData (f - 1)) with
    | none => none
    | some (f1, mn, mx) =>
      match pixelLoop fuel frameData ppf n (p + 1) f1 with
      | none => none
      | some rest => some (⟨p + 1, f, f1, mn, mx⟩ :: rest)

/-- A channel loop `for (ch = ...; ...; ch++) body`: `n` iterations starting at
channel `ch`, the calls of all iterations in order. -/
def chanLoop (body : Nat → Option (List PaintCmd)) : Nat → Nat → Option (List PaintCmd)
  | 0, _ => some []
  | n + 1, ch =>
    match body ch with
    | none => none
    | some blk =>
      match chanLoop body n (ch + 1) with
      | none => none
      | some rest => some (blk ++ rest)

/-- The frame vector of a channel: `frameData = _data + ch * maxFrames`. -/
def channelRow (s : Widget) (maxFrames ch : Nat) : Nat → ℚ :=
  fun f => s._data.mem (ch * maxFrames + f)

/-- The vertical origin of a channel: `yHeight * (overlapped ? 0.5 : ch + 0.5)`. -/
def yOrigin (overlapped : Bool) (yHeight : ℚ) (ch : Nat) : ℚ :=
  yHeight * (if overlapped then 1 / 2 else (ch : ℚ) + 1 / 2)

/-- The body of the channel loop of `paint1D` in point mode. -/
def pointChannel (s : Widget) (overlapped : Bool) (maxFrames frameCount : Nat)
    (xRatio yRatio yHeight : ℚ) (ch : Nat) : List PaintCmd :=
  let area := s.rect
  let frameData := channelRow s maxFrames ch
  let color := channelColor s.colors ch
  [ PaintCmd.save,
    PaintCmd.translate (area.x : ℚ) ((area.y : ℚ) + yOrigin overlapped yHeight ch),
    PaintCmd.scale xRatio yRatio,
    PaintCmd.setPen color,
    PaintCmd.drawPath (pointPath s.xOffset frameData frameCount),
    PaintCmd.restore ]

/-- The painter calls of one channel in bucket mode, given the iterations of
its pixel loop. -/
def bucketBlock (s : Widget) (overlapped : Bool) (yRatio yHeight : ℚ) (ch : Nat)
    (buckets : List Bucket) : List PaintCmd :=
  let area := s.rect
  let color := channelColor s.colors ch
  [ PaintCmd.save,
    PaintCmd.translate (area.x : ℚ) ((area.y : ℚ) + yOrigin overlapped yHeight ch),
    PaintCmd.scale 1 yRatio,
    PaintCmd.setPen color ] ++ buckets.map Bucket.line ++ [PaintCmd.restore]

/-- The body of the channel loop of `paint1D` in bucket mode: the pixel loop
starts with `p = 0, f = 1` and runs `w` times. -/
def bucketChannel (fuel : Nat) (s : Widget) (overlapped : Bool) (maxFrames : Nat)
    (w : Nat) (ppf yRatio yHeight : ℚ) (ch : Nat) : Option (List PaintCmd) :=
  match pixelLoop fuel (channelRow s maxFrames ch) ppf w 0 1 with
  | none => none
  | some buckets => some (bucketBlock s overlapped yRatio yHeight ch buckets)

/-- The vertical scale of `paint1D`: `- yZoom * height * 0.5`, divided by the
channel count unless overlapped. -/
def yRatio1D (s : Widget) (overlapped : Bool) (chanCount : Nat) : ℚ :=
  let yRatio : ℚ := -s.yZoom * (s.rect.height : ℚ) * (1 / 2)
  if !overlapped then yRatio / (chanCount : ℚ) else yRatio

/-- The band height of `paint1D`: the height, divided by the channel count
unless overlapped. -/
def yHeight1D (s : Widget) (overlapped : Bool) (chanCount : Nat) : ℚ :=
  let yHeight : ℚ := (s.rect.height : ℚ)
  if !overlapped then yHeight / (chanCount : ℚ) else yHeight

/-- The horizontal scale of point mode: `xZoom * width / (frameCount - 1)`. -/
def xRatio1D (s : Widget) (frameCount : Nat) : ℚ :=
  s.xZoom * (s.rect.width : ℚ) / (((frameCount : Int) - 1 : Int) : ℚ)

/-- The method `QcScopeShm::paint1D`: the painter calls it makes, or `none`
when an inner bucket loop exceeds `fuel` iterations. -/
def paint1D (fuel : Nat) (s : Widget) (overlapped : Bool)
    (chanCount maxFrames frameCount : Nat) : Option (List PaintCmd) :=
  if s._availableFrames < 2 then some []
  else
    let area := s.rect
    let yRatio : ℚ := yRatio1D s overlapped chanCount
    let yHeight : ℚ := yHeight1D s overlapped chanCount
    if frameCount < area.width then
      let xRatio : ℚ := xRatio1D s frameCount
      chanLoop
        (fun ch => some (pointChannel s overlapped maxFrames frameCount xRatio yRatio yHeight ch))
        chanCount 0
    else
      let w := area.width
      let ppf : ℚ := (w : ℚ) / (frameCount : ℚ)
      chanLoop (fun ch => bucketChannel fuel s overlapped maxFrames w ppf yRatio yHeight ch)
        chanCount 0

/-- The vertices of the path of `paint2D`. -/
def vectorPath (data : Nat → ℚ) (chanCount maxFrames frameCount : Nat) : List (ℚ × ℚ) :=
  if chanCount ≥ 2 then
    (data 0, data (maxFrames + 0)) ::
      (List.range' 1 (frameCount - 1)).map (fun f => (data f, data (maxFrames + f)))
  else
    (data 0, 0) :: (List.range' 1 (frameCount - 1)).map (fun f => (data f, 0))

/-- The method `QcScopeShm::paint2D`. -/
def paint2D (s : Widget) (chanCount maxFrames frameCount : Nat) : List PaintCmd :=
  let color := if s.colors.length ≠ 0 then channelColor s.colors 0 else QColor.rgb 255 255 255
  let area := s.rect
  let minSize : Nat := min area.width area.height
  let xRatio : ℚ := s.yZoom * (minSize : ℚ) * (1 / 2)
  let yRatio : ℚ := -s.yZoom * (minSize : ℚ) * (1 / 2)
  let center := area.center
  [ PaintCmd.setPen color,
    PaintCmd.translate (center.1 : ℚ) (center.2 : ℚ),
    PaintCmd.scale xRatio yRatio,
    PaintCmd.drawPath (vectorPath s._data.mem chanCount maxFrames frameCount) ]

/-- The method `QcScopeShm::paintEvent`. -/
def paintEvent (fuel : Nat) (s : Widget) : Option (List PaintCmd) :=
  let area := s.rect
  let bg := PaintCmd.fillRect area s._bkg
  if !s._running || s._availableFrames == 0 then some [bg]
  else
    let chanCount := s._shmReader.channels
    let maxFrames := s._shmReader.max_frames
    if s._style = 0 then
      (paint1D fuel s false chanCount maxFrames s._availableFrames).map (fun cs => bg :: cs)
    else if s._style = 1 then
      (paint1D fuel s true chanCount maxFrames s._availableFrames).map (fun cs => bg :: cs)
    else if s._style = 2 then
      some (bg :: paint2D s chanCount maxFrames s._availableFrames)
    else some [bg]

/-! ## Replaying painter calls (Qt's transform rules) -/

/-- The world transform of a painter restricted to what translate and scale
can build: `(x, y) ↦ (ox + sx * x, oy + sy * y)`. -/
structure Xform where
  ox : ℚ
  oy : ℚ
  sx : ℚ
  sy : ℚ

/-- The identity transform of a fresh painter. -/
def Xform.ident : Xform := ⟨0, 0, 1, 1⟩

/-- Device coordinates of a logical point. -/
def Xform.apply (t : Xform) (pt : ℚ × ℚ) : ℚ × ℚ := (t.ox + t.sx * pt.1, t.oy + t.sy * pt.2)

/-- The call `QPainter::translate`: the offset is given in the current logical
coordinates. -/
def Xform.translate (t : Xform) (dx dy : ℚ) : Xform := ⟨t.ox + t.sx * dx, t.oy + t.sy * dy, t.sx, t.sy⟩

/-- The call `QPainter::scale`. -/
def Xform.scale (t : Xform) (kx ky : ℚ) : Xform := ⟨t.ox, t.oy, t.sx * kx, t.sy * ky⟩

/-- The painter state that `save` and `restore` handle: transform and pen. -/
structure Painter where
  xf : Xform
  pen : Option QColor

/-- A fresh painter: identity transform, default pen. -/
def Painter.fresh : Painter := ⟨Xform.ident, none⟩

/-- What ends up on the surface, in device coordinates. -/
inductive Shape where
  | fill (topLeft bottomRight : ℚ × ℚ) (c : QColor)
  | path (pen : Option QColor) (pts : List (ℚ × ℚ))
  | line (pen : Option QColor) (a b : ℚ × ℚ)

/-- Replay painter calls from painter state `st` with the stack `stack` of
saved states. -/
def render : List PaintCmd → Painter → List Painter → List Shape
  | [], _, _ => []
  | PaintCmd.fillRect area c :: cs, st, stack =>
    Shape.fill (st.xf.apply ((area.x : ℚ), (area.y : ℚ)))
        (st.xf.apply ((area.x : ℚ) + (area.width : ℚ), (area.y : ℚ) + (area.height : ℚ))) c ::
      render cs st stack
  | PaintCmd.save :: cs, st, stack => render cs st (st :: stack)
  | PaintCmd.restore :: cs, st, stack =>
    match stack with
    | [] => render cs st []
    | top :: below => render cs top below
  | PaintCmd.translate dx dy :: cs, st, stack => render cs ⟨st.xf.translate dx dy, st.pen⟩ stack
  | PaintCmd.scale kx ky :: cs, st, stack => render cs ⟨st.xf.scale kx ky, st.pen⟩ stack
  | PaintCmd.setPen c :: cs, st, stack => render cs ⟨st.xf, some c⟩ stack
  | PaintCmd.drawPath pts :: cs, st, stack =>
    Shape.path st.pen (pts.map st.xf.apply) :: render cs st stack
  | PaintCmd.drawLine x1 y1 x2 y2 :: cs, st, stack =>
    Shape.line st.pen (st.xf.apply (x1, y1)) (st.xf.apply (x2, y2)) :: render cs st stack

/-! ## Predicates used to state the behaviour of the bucket decimator -/

/-- The state of the pixel loop between iterations, for width `w` and
`n = frameCount`: after `p` pixels the frame cursor `f` is at least 1, frame
`f` lies at or beyond the right edge of pixel `p` (`p * n ≤ f * w`, that is
`p ≤ f * ppf`), and frame `f - 1` lies before it, except at the start, where
`p = 0` and `f = 1`. -/
def AtBoundary (w n p f : Nat) : Prop :=
  1 ≤ f ∧ p * n ≤ f * w ∧ (p = 0 → f = 1) ∧ (1 ≤ p → (f - 1) * w < p * n)

instance (w n p f : Nat) : Decidable (AtBoundary w n p f) := by
  unfold AtBoundary
  infer_instance

/-- Iteration `b` is the one for pixel `q` of a row: it starts and ends at the
boundaries of pixel `q`, and its `min` and `max` are the least and the greatest
sample among the frames it covers. -/
def BucketOK (row : Nat → ℚ) (w n q : Nat) (b : Bucket) : Prop :=
  b.pixel = q ∧ AtBoundary w n (q - 1) b.first ∧ AtBoundary w n q b.next ∧ b.first ≤ b.next ∧
    (∀ g, b.covers g → b.min ≤ row g ∧ row g ≤ b.max) ∧
    (∃ g, b.covers g ∧ b.min = row g) ∧ (∃ g, b.covers g ∧ b.max = row g)

/-! ## The transform of the 1D styles as the specification states it -/

/-- The vertical surface position at which the specification places sample
`v` of channel `ch`: in overlapped style `area.y + H/2 - yZoom * (H/2) * v`, in
separated style `area.y + (ch + 0.5) * band - yZoom * band * 0.5 * v` with
`band = H / chanCount`. -/
def plotY (s : Widget) (overlapped : Bool) (chanCount ch : Nat) (v : ℚ) : ℚ :=
  if overlapped then
    (s.rect.y : ℚ) + (s.height : ℚ) / 2 - s.yZoom * ((s.height : ℚ) / 2) * v
  else
    (s.rect.y : ℚ) + ((ch : ℚ) + 1 / 2) * ((s.height : ℚ) / (chanCount : ℚ)) -
      s.yZoom * ((s.height : ℚ) / (chanCount : ℚ)) * (1 / 2) * v

/-- The horizontal surface position of frame `f` in point mode:
`xRatio * (xOffset + f)` with `xRatio = xZoom * W / (frameCount - 1)`. -/
def plotX (s : Widget) (frameCount f : Nat) : ℚ :=
  s.xZoom * (s.width : ℚ) / ((frameCount : ℚ) - 1) * (s.xOffset + (f : ℚ))

/-- The shapes of one channel in bucket mode: for each iteration of the pixel
loop a line at `x = pixel - 1` from the position of `min` to that of `max`. -/
def bucketShapes (s : Widget) (overlapped : Bool) (chanCount ch : Nat)
    (buckets : List Bucket) : List Shape :=
  buckets.map (fun b =>
    Shape.line (some (channelColor s.colors ch))
      ((b.pixel : ℚ) - 1, plotY s overlapped chanCount ch b.min)
      ((b.pixel : ℚ) - 1, plotY s overlapped chanCount ch b.max))

/-- The shape of one channel in point mode: one path, vertex `f` at
`(plotX f, plotY (row f))` for `f = 0 .. frameCount - 1`. -/
def pointShape (s : Widget) (overlapped : Bool) (chanCount maxFrames frameCount ch : Nat) :
    Shape :=
  Shape.path (some (channelColor s.colors ch))
    ((List.range frameCount).map (fun f =>
      (plotX s frameCount f, plotY s overlapped chanCount ch (channelRow s maxFrames ch f))))

/-- The number of `drawLine` calls in a list of painter calls. -/
def lineCount : List PaintCmd → Nat
  | [] => 0
  | PaintCmd.drawLine _ _ _ _ :: cs => lineCount cs + 1
  | _ :: cs => lineCount cs

/-- The vertices of the point-mode path of one channel on the surface. -/
def pointVertices (s : Widget) (overlapped : Bool) (chanCount maxFrames frameCount ch : Nat) :
    List (ℚ × ℚ) :=
  (List.range frameCount).map (fun f =>
    (plotX s frameCount f, plotY s overlapped chanCount ch (channelRow s maxFrames ch f)))

/-! ## Settings and the poll tick -/

/-- The method `QcScopeShm::setServerPort`: refused (with a warning) while
running. -/
def setServerPort (port : Int) (s : Widget) : Widget :=
  if s._running then s else { s with _srvPort := port }

/-- The method `QcScopeShm::setBufferNumber`.  While running it rebinds the
reader through `_shmClient`; `none` stands for the undefined behaviour of
calling through a null `_shmClient`. -/
def setBufferNumber (env : ShmEnv) (n : Int) (s : Widget) : Option Widget :=
  if s._running then
    match s._shmClient with
    | none => none
    | some shm => some { initScopeReader env shm n s with _scopeIndex := n }
  else some { s with _scopeIndex := n }

/-- The method `QcScopeShm::setWaveColors`.  The argument lists
`var.value<QColor>()` for each variant of `newColors.data`; the loop appends
black for an invalid colour and the colour itself otherwise. -/
def setWaveColors (newColors : List QColor) (s : Widget) : Widget :=
  { s with
    colors := newColors.foldl
      (fun acc color => if !color.valid then acc ++ [QColor.rgb 0 0 0] else acc ++ [color]) [] }

/-- The method `QcScopeShm::updateInterval`. -/
def updateInterval (s : Widget) : Int := s.timer.interval

/-- The method `QcScopeShm::setUpdateInterval`: `timer->setInterval(qMax(0, interval))`.
Setting the interval does not start or stop a `QTimer`. -/
def setUpdateInterval (interval : Int) (s : Widget) : Widget :=
  { s with timer := { s.timer with interval := max 0 interval } }

/-- What the scope reader does when asked during one tick: `pull frames` gives
the returned flag and the value left in the variable passed by reference, and
`data` is the pointer `data()` returns. -/
structure ReaderTick where
  pull : Nat → Bool × Nat
  data : FloatPtr

/-- The slot `QcScopeShm::updateScope`; the flag tells whether `update()` was
called, that is whether a redraw was requested. -/
def updateScope (r : ReaderTick) (s : Widget) : Widget × Bool :=
  let valid := s._shmReader.valid
  if !valid then (s, false)
  else
    let res := r.pull s._availableFrames
    let s1 := { s with _availableFrames := res.2 }
    if res.1 then ({ s1 with _data := r.data }, true) else (s1, false)

/-- The widget states that the constructor followed by any sequence of
`start`, `stop`, `setServerPort`, `setBufferNumber`, `setUpdateInterval`,
`setWaveColors` and ticks can produce, against any server and any reader
behaviour. -/
inductive Reachable : Widget → Prop where
  | init (width height : Nat) : Reachable (Widget.init width height)
  | byStart (env : ShmEnv) (s : Widget) : Reachable s → Reachable (start env s)
  | byStop (s : Widget) : Reachable s → Reachable (stop s)
  | bySetServerPort (port : Int) (s : Widget) : Reachable s → Reachable (setServerPort port s)
  | bySetBufferNumber (env : ShmEnv) (n : Int) (s t : Widget) :
      Reachable s → setBufferNumber env n s = some t → Reachable t
  | bySetUpdateInterval (interval : Int) (s : Widget) :
      Reachable s → Reachable (setUpdateInterval interval s)
  | bySetWaveColors (newColors : List QColor) (s : Widget) :
      Reachable s → Reachable (setWaveColors newColors s)
  | byTick (r : ReaderTick) (s : Widget) : Reachable s → Reachable (updateScope r s).1

/-! ## The 1D paint routine as compiled: binary32 loop test and reads

`paint1D` above evaluates the test `f * ppf < p` of the inner bucket loop in
exact arithmetic.  The compiled code evaluates it in binary32: `ppf` is the
rounded quotient of the converted integers, and each test rounds the product of
the converted cursor with `ppf` and compares it with the converted pixel
counter.  The definitions of this section follow the same loops with that
test, and return next to the painter calls the offsets of `_data` that were
read, in order. -/

/-- Round to the nearest integer, ties to the even one. -/
def roundHalfEven (y : ℚ) : ℤ :=
  if y - (⌊y⌋ : ℚ) < 1 / 2 then ⌊y⌋
  else if 1 / 2 < y - (⌊y⌋ : ℚ) then ⌊y⌋ + 1
  else if ⌊y⌋ % 2 = 0 then ⌊y⌋ else ⌊y⌋ + 1

/-- The binary32 value nearest to `x` (24 significant bits, ties to even).
Exponent limits are left out: every value rounded below lies between
`2^-31` and `2^32`. -/
def f32 (x : ℚ) : ℚ :=
  if 0 < x then
    (roundHalfEven (x / (2 : ℚ) ^ (Int.log 2 x - 23)) : ℚ) * (2 : ℚ) ^ (Int.log 2 x - 23)
  else if x < 0 then
    -((roundHalfEven (-x / (2 : ℚ) ^ (Int.log 2 (-x) - 23)) : ℚ) * (2 : ℚ) ^ (Int.log 2 (-x) - 23))
  else 0

/-- The test `f * ppf < p` of the inner loop as compiled: `f` and `p` are
converted to `float`, the product is rounded to `float`. -/
def lessBinary32 (ppf : ℚ) (f p : Nat) : Bool :=
  decide (f32 (f32 (f : ℚ) * ppf) < f32 (p : ℚ))

/-- The inner loop of the bucket decimator with the compiled test, run for at
most `fuel` iterations.  Next to the cursor, minimum and maximum on exit it
returns the frames `f` for which `frameData[f]` was read, in order. -/
def bucketScanBinary32 (frameData : Nat → ℚ) (ppf : ℚ) (p : Nat) :
    Nat → Nat → ℚ → ℚ → Option (Nat × ℚ × ℚ × List Nat)
  | 0, f, mn, mx => if lessBinary32 ppf f p then none else some (f, mn, mx, [])
  | fuel + 1, f, mn, mx =>
    if lessBinary32 ppf f p then
      let d := frameData f
      match (if d < mn then bucketScanBinary32 frameData ppf p fuel (f + 1) d mx
        else if d > mx then bucketScanBinary32 frameData ppf p fuel (f + 1) mn d
        else bucketScanBinary32 frameData ppf p fuel (f + 1) mn mx) with
      | none => none
      | some (e, a, b, reads) => some (e, a, b, f :: reads)
    else some (f, mn, mx, [])

/-- One iteration of the pixel loop as compiled: its loop variables and the
frames it read, the seed `frameData[f-1]` first. -/
structure Pass where
  bucket : Bucket
  reads : List Nat

/-- The pixel loop `while (p++ < w) { ... }` with the compiled test; arguments
as for `pixelLoop`. -/
def pixelLoopBinary32 (fuel : Nat) (frameData : Nat → ℚ) (ppf : ℚ) :
    Nat → Nat → Nat → Option (List Pass)
  | 0, _, _ => some []
  | n + 1, p, f =>
    match bucketScanBinary32 frameData ppf (p + 1) fuel f (frameData (f - 1))
        (frameData (f - 1)) with
    | none => none
    | some (f1, mn, mx, reads) =>
      match pixelLoopBinary32 fuel frameData ppf n (p + 1) f1 with
      | none => none
      | some rest => some (⟨⟨p + 1, f, f1, mn, mx⟩, (f - 1) :: reads⟩ :: rest)

/-- The offsets read for channel `ch` in point mode: `frameData[0]` by
`moveTo`, then `frameData[f]` for `f = 1 .. frameCount - 1`, where
`frameData = _data + ch * maxFrames`. -/
def pointReads (maxFrames frameCount ch : Nat) : List Nat :=
  (ch * maxFrames + 0) ::
    (List.range' 1 (frameCount - 1)).map (fun f => ch * maxFrames + f)

/-- The body of the channel loop of `paint1D` in bucket mode as compiled: the
painter calls of the channel and the offsets of `_data` it read. -/
def bucketChannelBinary32 (fuel : Nat) (s : Widget) (overlapped : Bool) (maxFrames : Nat)
    (w : Nat) (ppf yRatio yHeight : ℚ) (ch : Nat) : Option (List PaintCmd × List Nat) :=
  match pixelLoopBinary32 fuel (channelRow s maxFrames ch) ppf w 0 1 with
  | none => none
  | some passes =>
    some (bucketBlock s overlapped yRatio yHeight ch (passes.map Pass.bucket),
      passes.flatMap (fun ps => ps.reads.map (fun f => ch * maxFrames + f)))

/-- A channel loop collecting painter calls and offsets read: `n` iterations
starting at channel `ch`. -/
def runLoop (body : Nat → Option (List PaintCmd × List Nat)) :
    Nat → Nat → Option (List PaintCmd × List Nat)
  | 0, _ => some ([], [])
  | n + 1, ch =>
    match body ch with
    | none => none
    | some blk =>
      match runLoop body n (ch + 1) with
      | none => none
      | some rest => some (blk.1 ++ rest.1, blk.2 ++ rest.2)

/-- The method `QcScopeShm::paint1D` as compiled: the painter calls it makes
and the offsets of `_data` it reads, or `none` when an inner bucket loop
exceeds `fuel` iterations.  It differs from `paint1D` in the test of the inner
bucket loop only. -/
def paint1DBinary32 (fuel : Nat) (s : Widget) (overlapped : Bool)
    (chanCount maxFrames frameCount : Nat) : Option (List PaintCmd × List Nat) :=
  if s._availableFrames < 2 then some ([], [])
  else
    let area := s.rect
    let yRatio : ℚ := yRatio1D s overlapped chanCount
    let yHeight : ℚ := yHeight1D s overlapped chanCount
    if frameCount < area.width then
      let xRatio : ℚ := xRatio1D s frameCount
      runLoop
        (fun ch => some (pointChannel s overlapped maxFrames frameCount xRatio yRatio yHeight ch,
          pointReads maxFrames frameCount ch))
        chanCount 0
    else
      let w := area.width
      let ppf : ℚ := f32 (f32 (w : ℚ) / f32 (frameCount : ℚ))
      runLoop (fun ch => bucketChannelBinary32 fuel s overlapped maxFrames w ppf yRatio yHeight ch)
        chanCount 0

/-- What the compiled pixel loop guarantees for one iteration `ps` for pixel
`q`, with `stop` an upper bound of the cursor: the cursor moves from `first` to
the first frame at which the test fails, `min` and `max` are the least and
greatest sample among the frames read, and the frames read are the seed
`first - 1` followed by `first .. next - 1`. -/
def PassOK (row : Nat → ℚ) (ppf : ℚ) (stop q : Nat) (ps : Pass) : Prop :=
  ps.bucket.pixel = q ∧ 1 ≤ ps.bucket.first ∧ ps.bucket.first ≤ ps.bucket.next ∧
    ps.bucket.next ≤ stop ∧
    (∀ g, ps.bucket.first ≤ g → g < ps.bucket.next → lessBinary32 ppf g q = true) ∧
    lessBinary32 ppf ps.bucket.next q = false ∧
    (∀ g, ps.bucket.covers g → ps.bucket.min ≤ row g ∧ row g ≤ ps.bucket.max) ∧
    (∃ g, ps.bucket.covers g ∧ ps.bucket.min = row g) ∧
    (∃ g, ps.bucket.covers g ∧ ps.bucket.max = row g) ∧
    ps.reads = (ps.bucket.first - 1) ::
      List.range' ps.bucket.first (ps.bucket.next - ps.bucket.first)

/-- The iterations `passes` are those of the compiled pixel loop continued after
pixel `p` with cursor `f`: each satisfies `PassOK` and starts where the one
before it stopped. -/
def PassesOK (row : Nat → ℚ) (ppf : ℚ) (stop : Nat) : Nat → Nat → List Pass → Prop
  | _, _, [] => True
  | p, f, ps :: rest =>
    PassOK row ppf stop (p + 1) ps ∧ ps.bucket.first = f ∧
      PassesOK row ppf stop (p + 1) ps.bucket.next rest

/-! ## Sample inputs -/

/-- A running widget of the given size holding `frames` frames of a two-channel
buffer with 512 frames per channel; sample `i` of the segment has value
`(i mod 7) - 3`. -/
def sampleWidget (width height frames : Nat) : Widget :=
  { Widget.init width height with
    _srvPort := 57110
    _scopeIndex := 0
    _shmClient := some ⟨1⟩
    _shmReader := ⟨true, 2, 512⟩
    _running := true
    _data := ⟨some 1, fun i => ((i % 7 : Nat) : ℚ) - 3⟩
    _availableFrames := frames
    timer := ⟨50, true⟩ }

/-- A running widget of the given width, 100 pixels high, whose snapshot holds
`frames` frames of a buffer of `channels` channels with `maxFrames` frames each;
`mem` gives the sample at each offset of `_data`. -/
def snapshotWidget (width frames channels maxFrames : Nat) (mem : Nat → ℚ) : Widget :=
  { Widget.init width 100 with
    _srvPort := 57110
    _scopeIndex := 0
    _shmClient := some ⟨1⟩
    _shmReader := ⟨true, channels, maxFrames⟩
    _running := true
    _data := ⟨some 1, mem⟩
    _availableFrames := frames
    timer := ⟨50, true⟩ }

/-- The ramp: the sample at offset `i` has value `i`. -/
def ramp : Nat → ℚ := fun i => (i : ℚ)

/-- The ramp with the sample at offset 41 replaced by 100. -/
def rampBump : Nat → ℚ := fun i => if i = 41 then 100 else (i : ℚ)

/-- A server whose shared memory cannot be reached: every connection attempt
throws. -/
def refusingServer : ShmEnv := ⟨fun _ => none, fun _ _ => ⟨true, 2, 512⟩⟩

/-- A freshly constructed 200 x 100 widget configured with port 57110 and
buffer index 0, not started. -/
def configuredWidget : Widget :=
  { Widget.init 200 100 with _srvPort := 57110, _scopeIndex := 0 }

/-- A server that accepts every connection as mapping number 1 and binds a
valid reader of 2 channels with 512 frames each. -/
def acceptingServer : ShmEnv := ⟨fun _ => some ⟨1⟩, fun _ _ => ⟨true, 2, 512⟩⟩

/-- The state after `setBufferNumber`, or the state itself where the call has
no defined outcome. -/
def setBufferNumberOrSame (env : ShmEnv) (n : Int) (s : Widget) : Widget :=
  (setBufferNumber env n s).getD s

/-- A server that accepts every connection as mapping number 2 and binds a
valid reader of 2 channels with 512 frames each. -/
def restartServer : ShmEnv := ⟨fun _ => some ⟨2⟩, fun _ _ => ⟨true, 2, 512⟩⟩

/-- A tick on which the reader bound to mapping 1 reports 100 new frames
inside that mapping. -/
def firstTick : ReaderTick := ⟨fun _ => (true, 100), ⟨some 1, fun i => ((i % 7 : Nat) : ℚ) - 3⟩⟩

/-- The configured widget after `start` (mapping 1), one tick with new data,
`stop`, and `start` again (mapping 2). -/
def restartedWidget : Widget :=
  start restartServer (stop (updateScope firstTick (start acceptingServer configuredWidget)).1)

/-- The snapshot the widget would paint belongs to the mapping it currently
holds: when `paintEvent` would draw samples, `_data` points into the segment of
the held client. -/
def SnapshotFresh (s : Widget) : Prop :=
  s._running = true → s._availableFrames ≠ 0 →
    ∃ c : ShmClient, s._shmClient = some c ∧ s._data.owner = some c.id

/-! ## Lifecycle: stopping and failed connections -/

/-- C9 (idempotent stop): from every widget state, `stop` after `stop` gives
exactly the state of a single `stop`; after `stop` the timer is inactive (no
further tick is scheduled), no connection is held and `_running` is false. -/
theorem stop_idempotent (s : Widget) :
    stop (stop s) = stop s ∧ (stop s).timer.active = false ∧
      (stop s)._shmClient = none ∧ (stop s)._running = false :=
  ⟨rfl, rfl, rfl, rfl⟩

/-- C10 (failed connection leaves the widget stopped): from a non-running state
with port and buffer index both non-negative, when the client constructor
throws, `start` ends with no connection held, the timer inactive, `_running`
false, the scope reader untouched (no reader was bound) and port and buffer
index unchanged; a following `paintEvent` makes the background fill its only
painter call. -/
theorem start_failed_connection (env : ShmEnv) (s : Widget) (fuel : Nat)
    (hrun : s._running = false) (hport : 0 ≤ s._srvPort) (hidx : 0 ≤ s._scopeIndex)
    (hfail : env.connect s._srvPort = none) :
    (start env s)._shmClient = none ∧ (start env s).timer.active = false ∧
      (start env s)._running = false ∧ (start env s)._shmReader = s._shmReader ∧
      (start env s)._srvPort = s._srvPort ∧ (start env s)._scopeIndex = s._scopeIndex ∧
      paintEvent fuel (start env s) = some [PaintCmd.fillRect s.rect s._bkg] := by
  have hguard : ¬ (s._srvPort < 0 ∨ s._scopeIndex < 0) := by
    rintro (h | h) <;> omega
  have hstart : start env s = stop s := by
    unfold start
    rw [if_neg (by simp [hrun]), if_neg hguard]
    simp only [connectSharedMemory, hfail]
    rfl
  rw [hstart]
  refine ⟨rfl, rfl, rfl, rfl, rfl, rfl, ?_⟩
  simp [paintEvent, stop, Widget.rect]

/-- Starting the configured widget against the unreachable server meets the
hypotheses of `start_failed_connection`: the widget stays stopped and paints
only its black background. -/
theorem start_failed_connection_witness :
    configuredWidget._running = false ∧ 0 ≤ configuredWidget._srvPort ∧
      0 ≤ configuredWidget._scopeIndex ∧
      refusingServer.connect configuredWidget._srvPort = none ∧
      (start refusingServer configuredWidget)._shmClient = none ∧
      (start refusingServer configuredWidget).timer.active = false ∧
      (start refusingServer configuredWidget)._running = false ∧
      paintEvent 0 (start refusingServer configuredWidget) =
        some [PaintCmd.fillRect ⟨0, 0, 200, 100⟩ (QColor.rgb 0 0 0)] := by
  have h := start_failed_connection refusingServer configuredWidget 0
    rfl (by decide) (by decide) rfl
  exact ⟨rfl, by decide, by decide, rfl, h.1, h.2.1, h.2.2.1, h.2.2.2.2.2.2⟩

/-! ## Vector style -/

theorem vectorPath_length (data : Nat → ℚ) (chanCount maxFrames frameCount : Nat)
    (hf : 1 ≤ frameCount) : (vectorPath data chanCount maxFrames frameCount).length = frameCount := by
  unfold vectorPath
  split <;> simp <;> omega

theorem vectorPath_getElem? (data : Nat → ℚ) (chanCount maxFrames frameCount f : Nat)
    (hf : f < frameCount) :
    (vectorPath data chanCount maxFrames frameCount)[f]? =
      some (data f, if 2 ≤ chanCount then data (maxFrames + f) else 0) := by
  unfold vectorPath
  by_cases hc : chanCount ≥ 2
  · rw [if_pos hc, if_pos hc]
    cases f with
    | zero => simp
    | succ k =>
      rw [List.getElem?_cons_succ, List.getElem?_map,
        List.getElem?_range' 1 1 (by omega : k < frameCount - 1)]
      simp [Nat.add_comm]
  · rw [if_neg hc, if_neg hc]
    cases f with
    | zero => simp
    | succ k =>
      rw [List.getElem?_cons_succ, List.getElem?_map,
        List.getElem?_range' 1 1 (by omega : k < frameCount - 1)]
      simp [Nat.add_comm]

/-- C8 (vector style): for `frameCount ≥ 1` and a widget whose `_data` points
into a shared segment (it is not the null pointer of the constructor), `paint2D`
sets the pen, moves the
origin to the centre of the surface, scales x by `yZoom * min(width, height) / 2`
and y by the negative of the same amount, and draws one path of exactly
`frameCount` vertices in frame order; vertex `f` is `(data[f], data[maxFrames + f])`
when there are at least two channels and `(data[f], 0)` otherwise.  On the
surface vertex `(x, y)` lands at `(cx + k * x, cy - k * y)` with
`k = yZoom * min(width, height) / 2` and `(cx, cy)` the centre. -/
theorem paint2D_vector (s : Widget) (chanCount maxFrames frameCount : Nat)
    (hf : 1 ≤ frameCount) (_hdata : s._data.owner ≠ none) :
    ∃ pts : List (ℚ × ℚ),
      paint2D s chanCount maxFrames frameCount =
        [ PaintCmd.setPen
            (if s.colors.length ≠ 0 then channelColor s.colors 0 else QColor.rgb 255 255 255),
          PaintCmd.translate (s.rect.center.1 : ℚ) (s.rect.center.2 : ℚ),
          PaintCmd.scale (s.yZoom * ((min s.width s.height : Nat) : ℚ) / 2)
            (-(s.yZoom * ((min s.width s.height : Nat) : ℚ) / 2)),
          PaintCmd.drawPath pts ] ∧
      pts.length = frameCount ∧
      (∀ f, f < frameCount →
        pts[f]? = some (s._data.mem f, if 2 ≤ chanCount then s._data.mem (maxFrames + f) else 0)) ∧
      render (paint2D s chanCount maxFrames frameCount) Painter.fresh [] =
        [ Shape.path
            (some (if s.colors.length ≠ 0 then channelColor s.colors 0 else QColor.rgb 255 255 255))
            (pts.map (fun v =>
              ((s.rect.center.1 : ℚ) + s.yZoom * ((min s.width s.height : Nat) : ℚ) / 2 * v.1,
               (s.rect.center.2 : ℚ) - s.yZoom * ((min s.width s.height : Nat) : ℚ) / 2 * v.2))) ] := by
  refine ⟨vectorPath s._data.mem chanCount maxFrames frameCount, ?_, ?_, ?_, ?_⟩
  · have hx : s.yZoom * ((min s.width s.height : Nat) : ℚ) * (1 / 2) =
        s.yZoom * ((min s.width s.height : Nat) : ℚ) / 2 := by ring
    have hy : -s.yZoom * ((min s.width s.height : Nat) : ℚ) * (1 / 2) =
        -(s.yZoom * ((min s.width s.height : Nat) : ℚ) / 2) := by ring
    simp only [paint2D, Widget.rect, hx, hy]
  · exact vectorPath_length _ _ _ _ hf
  · intro f hlt
    exact vectorPath_getElem? _ _ _ _ _ hlt
  · simp only [paint2D, render, Painter.fresh, Xform.ident, Xform.translate, Xform.scale,
      Widget.rect]
    congr 2
    apply List.map_congr_left
    intro v _
    simp only [Xform.apply]
    refine Prod.ext ?_ ?_
    · show (0 : ℚ) + 1 * _ + 1 * _ * v.1 = _
      ring
    · show (0 : ℚ) + 1 * _ + 1 * _ * v.2 = _
      ring

/-- A running 200 x 100 widget showing 3 frames of a two-channel buffer with 512
frames per channel (sample `i` of the segment is `(i mod 7) - 3`): `_data`
points into the segment of connection 1, `paint2D_vector` applies, and the path
has the 3 vertices `(data[f], data[512 + f])`. -/
theorem paint2D_vector_witness :
    1 ≤ 3 ∧ (sampleWidget 200 100 3)._data.owner ≠ none ∧
      ∃ pts : List (ℚ × ℚ),
        paint2D (sampleWidget 200 100 3) 2 512 3 =
          [ PaintCmd.setPen (QColor.rgb 255 255 255),
            PaintCmd.translate 99 49,
            PaintCmd.scale 50 (-50),
            PaintCmd.drawPath pts ] ∧
        pts.length = 3 ∧
        pts[0]? = some ((-3 : ℚ), (-2 : ℚ)) ∧ pts[1]? = some ((-2 : ℚ), (-1 : ℚ)) ∧
        pts[2]? = some ((-1 : ℚ), (0 : ℚ)) := by
  have hd : (sampleWidget 200 100 3)._data.owner ≠ none := by
    simp [sampleWidget]
  refine ⟨by decide, hd, ?_⟩
  obtain ⟨pts, h1, h2, h3, _⟩ := paint2D_vector (sampleWidget 200 100 3) 2 512 3 (by decide) hd
  have hx : Int.tdiv 199 2 = 99 := by decide
  have hy : Int.tdiv 99 2 = 49 := by decide
  refine ⟨pts, ?_, h2, ?_, ?_, ?_⟩
  · rw [h1]
    simp only [sampleWidget, Widget.init, Widget.rect, QRect.center, channelColor]
    norm_num [hx, hy]
  · rw [h3 0 (by decide)]
    norm_num [sampleWidget]
  · rw [h3 1 (by decide)]
    norm_num [sampleWidget]
  · rw [h3 2 (by decide)]
    norm_num [sampleWidget]

/-! ## The bucket decimator -/

theorem ppf_lt_iff (w n f p : Nat) (hn : 0 < n) :
    (f : ℚ) * ((w : ℚ) / (n : ℚ)) < (p : ℚ) ↔ f * w < p * n := by
  have hn' : (0 : ℚ) < (n : ℚ) := by exact_mod_cast hn
  rw [← mul_div_assoc, div_lt_iff₀ hn']
  exact_mod_cast Iff.rfl

theorem bucketScan_spec (row : Nat → ℚ) (ppf : ℚ) (p : Nat) :
    ∀ (fuel k f : Nat) (mn mx : ℚ), k ≤ fuel →
      (∀ g, f ≤ g → g < f + k → (g : ℚ) * ppf < (p : ℚ)) →
      ¬ (((f + k : Nat) : ℚ) * ppf < (p : ℚ)) → mn ≤ mx →
      ∃ mn1 mx1, bucketScan row ppf p fuel f mn mx = some (f + k, mn1, mx1) ∧
        mn1 ≤ mn ∧ mx ≤ mx1 ∧ mn1 ≤ mx1 ∧
        (∀ g, f ≤ g → g < f + k → mn1 ≤ row g ∧ row g ≤ mx1) ∧
        (mn1 = mn ∨ ∃ g, f ≤ g ∧ g < f + k ∧ mn1 = row g) ∧
        (mx1 = mx ∨ ∃ g, f ≤ g ∧ g < f + k ∧ mx1 = row g) := by
  intro fuel
  induction fuel with
  | zero =>
    intro k f mn mx hk _ hstop hle
    have hk0 : k = 0 := by omega
    subst hk0
    refine ⟨mn, mx, ?_, le_refl _, le_refl _, hle, ?_, Or.inl rfl, Or.inl rfl⟩
    · simp only [bucketScan, Nat.add_zero] at hstop ⊢
      rw [if_neg hstop]
    · intro g h1 h2
      omega
  | succ fuel ih =>
    intro k f mn mx hk hin hstop hle
    cases k with
    | zero =>
      refine ⟨mn, mx, ?_, le_refl _, le_refl _, hle, ?_, Or.inl rfl, Or.inl rfl⟩
      · simp only [bucketScan, Nat.add_zero] at hstop ⊢
        rw [if_neg hstop]
      · intro g h1 h2
        omega
    | succ k =>
      have hcond : (f : ℚ) * ppf < (p : ℚ) := hin f (le_refl _) (by omega)
      have hin1 : ∀ g, f + 1 ≤ g → g < f + 1 + k → (g : ℚ) * ppf < (p : ℚ) :=
        fun g h1 h2 => hin g (by omega) (by omega)
      have hstop1 : ¬ (((f + 1 + k : Nat) : ℚ) * ppf < (p : ℚ)) := by
        have : f + 1 + k = f + (k + 1) := by omega
        rw [this]
        exact hstop
      have hidx : f + (k + 1) = f + 1 + k := by omega
      rw [hidx]
      simp only [bucketScan, if_pos hcond]
      by_cases h1 : row f < mn
      · rw [if_pos h1]
        obtain ⟨a, b, he, ha, hb, hab, hall, hmn, hmx⟩ :=
          ih k (f + 1) (row f) mx (by omega) hin1 hstop1 (le_trans (le_of_lt h1) hle)
        refine ⟨a, b, he, le_trans ha (le_of_lt h1), hb, hab, ?_, ?_, ?_⟩
        · intro g hg1 hg2
          rcases Nat.eq_or_lt_of_le hg1 with hfg | hfg
          · subst hfg
            exact ⟨ha, le_trans (le_trans (le_of_lt h1) hle) hb⟩
          · exact hall g hfg hg2
        · rcases hmn with h | ⟨g, hg1, hg2, hg3⟩
          · exact Or.inr ⟨f, le_refl _, by omega, h⟩
          · exact Or.inr ⟨g, by omega, hg2, hg3⟩
        · rcases hmx with h | ⟨g, hg1, hg2, hg3⟩
          · exact Or.inl h
          · exact Or.inr ⟨g, by omega, hg2, hg3⟩
      · rw [if_neg h1]
        by_cases h2 : row f > mx
        · rw [if_pos h2]
          obtain ⟨a, b, he, ha, hb, hab, hall, hmn, hmx⟩ :=
            ih k (f + 1) mn (row f) (by omega) hin1 hstop1 (le_trans hle (le_of_lt h2))
          refine ⟨a, b, he, ha, le_trans (le_of_lt h2) hb, hab, ?_, ?_, ?_⟩
          · intro g hg1 hg2
            rcases Nat.eq_or_lt_of_le hg1 with hfg | hfg
            · subst hfg
              exact ⟨le_trans ha (not_lt.mp h1), hb⟩
            · exact hall g hfg hg2
          · rcases hmn with h | ⟨g, hg1, hg2, hg3⟩
            · exact Or.inl h
            · exact Or.inr ⟨g, by omega, hg2, hg3⟩
          · rcases hmx with h | ⟨g, hg1, hg2, hg3⟩
            · exact Or.inr ⟨f, le_refl _, by omega, h⟩
            · exact Or.inr ⟨g, by omega, hg2, hg3⟩
        · rw [if_neg h2]
          obtain ⟨a, b, he, ha, hb, hab, hall, hmn, hmx⟩ :=
            ih k (f + 1) mn mx (by omega) hin1 hstop1 hle
          refine ⟨a, b, he, ha, hb, hab, ?_, ?_, ?_⟩
          · intro g hg1 hg2
            rcases Nat.eq_or_lt_of_le hg1 with hfg | hfg
            · subst hfg
              exact ⟨le_trans ha (not_lt.mp h1), le_trans (not_lt.mp h2) hb⟩
            · exact hall g hfg hg2
          · rcases hmn with h | ⟨g, hg1, hg2, hg3⟩
            · exact Or.inl h
            · exact Or.inr ⟨g, by omega, hg2, hg3⟩
          · rcases hmx with h | ⟨g, hg1, hg2, hg3⟩
            · exact Or.inl h
            · exact Or.inr ⟨g, by omega, hg2, hg3⟩

theorem next_boundary (w n p f : Nat) (hw : 1 ≤ w) (hwn : w ≤ n) (hp : p + 1 ≤ w)
    (hb : AtBoundary w n p f) :
    ∃ e, f ≤ e ∧ e ≤ n ∧ AtBoundary w n (p + 1) e ∧ ∀ g, g < e → g * w < (p + 1) * n := by
  obtain ⟨hf1, hf2, hf3, hf4⟩ := hb
  have ha : 1 ≤ (p + 1) * n := Nat.mul_pos (by omega) (by omega)
  obtain ⟨e, he1, he2⟩ : ∃ e, (p + 1) * n ≤ e * w ∧ e * w < (p + 1) * n + w := by
    refine ⟨((p + 1) * n + w - 1) / w, ?_, ?_⟩
    · have h1 := Nat.div_add_mod ((p + 1) * n + w - 1) w
      have h2 := Nat.mod_lt ((p + 1) * n + w - 1) (by omega : w > 0)
      rw [Nat.mul_comm] at h1
      omega
    · have h1 := Nat.div_mul_le_self ((p + 1) * n + w - 1) w
      omega
  have he0 : 1 ≤ e := by
    rcases Nat.eq_zero_or_pos e with h | h
    · subst h
      simp at he1
      omega
    · exact h
  have hsub : (e - 1) * w + w = e * w := by
    have : e = (e - 1) + 1 := by omega
    conv_rhs => rw [this, Nat.add_mul, Nat.one_mul]
  have hprev : (e - 1) * w < (p + 1) * n := by omega
  have hbelow : ∀ g, g < e → g * w < (p + 1) * n := by
    intro g hg
    have : g * w ≤ (e - 1) * w := Nat.mul_le_mul_right w (by omega)
    omega
  have hen : e ≤ n := by
    have h1 : (p + 1) * n ≤ w * n := Nat.mul_le_mul_right n hp
    have h2 : (e - 1) * w < n * w := by
      rw [Nat.mul_comm n w]
      omega
    have h3 : e - 1 < n := Nat.lt_of_mul_lt_mul_right h2
    omega
  have hfe : f ≤ e := by
    by_contra hlt
    have hlt1 : e ≤ f - 1 := by omega
    have h1 : e * w ≤ (f - 1) * w := Nat.mul_le_mul_right w hlt1
    rcases Nat.eq_zero_or_pos p with h | h
    · have := hf3 h
      omega
    · have h2 := hf4 h
      have h3 : p * n ≤ (p + 1) * n := Nat.mul_le_mul_right n (by omega)
      omega
  exact ⟨e, hfe, hen, ⟨he0, he1, fun h => by omega, fun _ => hprev⟩, hbelow⟩

theorem pixelLoop_spec (row : Nat → ℚ) (w n fuel : Nat) (hw : 1 ≤ w) (hwn : w ≤ n)
    (hfuel : n ≤ fuel) :
    ∀ (k p f : Nat), p + k ≤ w → AtBoundary w n p f →
      ∃ bs, pixelLoop fuel row ((w : ℚ) / (n : ℚ)) k p f = some bs ∧ bs.length = k ∧
        ∀ j, j < k → ∃ b, bs[j]? = some b ∧ BucketOK row w n (p + j + 1) b := by
  intro k
  induction k with
  | zero =>
    intro p f _ _
    exact ⟨[], rfl, rfl, fun j hj => absurd hj (Nat.not_lt_zero j)⟩
  | succ k ih =>
    intro p f hpk hb
    obtain ⟨e, hfe, hen, hbe, hbelow⟩ := next_boundary w n p f hw hwn (by omega) hb
    have hn : 0 < n := by omega
    obtain ⟨mn1, mx1, hscan, h1, h2, _, hall, hmn, hmx⟩ :=
      bucketScan_spec row ((w : ℚ) / (n : ℚ)) (p + 1) fuel (e - f) f (row (f - 1)) (row (f - 1))
        (by omega)
        (fun g _ hg2 => (ppf_lt_iff w n g (p + 1) hn).2 (hbelow g (by omega)))
        (by
          rw [ppf_lt_iff w n _ (p + 1) hn]
          have : f + (e - f) = e := by omega
          rw [this]
          exact Nat.not_lt.mpr hbe.2.1)
        (le_refl _)
    have hfe' : f + (e - f) = e := by omega
    rw [hfe'] at hscan hall hmn hmx
    obtain ⟨rest, hrest, hlen, hidx⟩ := ih (p + 1) e (by omega) hbe
    refine ⟨⟨p + 1, f, e, mn1, mx1⟩ :: rest, ?_, by simp [hlen], ?_⟩
    · simp only [pixelLoop, hscan, hrest]
    · intro j hj
      cases j with
      | zero =>
        refine ⟨⟨p + 1, f, e, mn1, mx1⟩, by simp, rfl, ?_, hbe, hfe, ?_, ?_, ?_⟩
        · simpa using hb
        · rintro g (hg | ⟨hg1, hg2⟩)
          · simp only at hg
            subst hg
            exact ⟨h1, h2⟩
          · exact hall g hg1 hg2
        · rcases hmn with h | ⟨g, hg1, hg2, hg3⟩
          · exact ⟨f - 1, Or.inl rfl, h⟩
          · exact ⟨g, Or.inr ⟨hg1, hg2⟩, hg3⟩
        · rcases hmx with h | ⟨g, hg1, hg2, hg3⟩
          · exact ⟨f - 1, Or.inl rfl, h⟩
          · exact ⟨g, Or.inr ⟨hg1, hg2⟩, hg3⟩
      | succ j =>
        obtain ⟨b, hb1, hb2⟩ := hidx j (by omega)
        refine ⟨b, by simpa using hb1, ?_⟩
        have : p + (j + 1) + 1 = p + 1 + j + 1 := by omega
        rw [this]
        exact hb2

theorem chanLoop_some (body : Nat → Option (List PaintCmd)) (blk : Nat → List PaintCmd)
    (h : ∀ ch, body ch = some (blk ch)) :
    ∀ n c, chanLoop body n c = some ((List.range' c n).flatMap blk) := by
  intro n
  induction n with
  | zero => intro c; rfl
  | succ n ih =>
    intro c
    simp only [chanLoop, h c, ih (c + 1), List.range'_succ, List.flatMap_cons]

/-! ## The structure of the calls of `paint1D` -/

theorem paint1D_point_eq (fuel : Nat) (s : Widget) (overlapped : Bool)
    (chanCount maxFrames frameCount : Nat) (hav : 2 ≤ s._availableFrames)
    (hlt : frameCount < s.width) :
    paint1D fuel s overlapped chanCount maxFrames frameCount =
      some ((List.range chanCount).flatMap
        (pointChannel s overlapped maxFrames frameCount (xRatio1D s frameCount)
          (yRatio1D s overlapped chanCount) (yHeight1D s overlapped chanCount))) := by
  unfold paint1D
  rw [if_neg (by omega)]
  simp only [Widget.rect]
  rw [if_pos hlt, List.range_eq_range']
  exact chanLoop_some _ _ (fun _ => rfl) chanCount 0

theorem paint1D_bucket_eq (fuel : Nat) (s : Widget) (overlapped : Bool)
    (chanCount maxFrames frameCount : Nat) (hav : 2 ≤ s._availableFrames)
    (hw : 1 ≤ s.width) (hfw : s.width ≤ frameCount) (hfuel : frameCount ≤ fuel) :
    ∃ tr : Nat → List Bucket,
      paint1D fuel s overlapped chanCount maxFrames frameCount =
        some ((List.range chanCount).flatMap (fun ch =>
          bucketBlock s overlapped (yRatio1D s overlapped chanCount)
            (yHeight1D s overlapped chanCount) ch (tr ch))) ∧
      ∀ ch,
        pixelLoop fuel (channelRow s maxFrames ch) ((s.width : ℚ) / (frameCount : ℚ))
            s.width 0 1 = some (tr ch) ∧
          (tr ch).length = s.width ∧
          ∀ j, j < s.width → ∃ b, (tr ch)[j]? = some b ∧
            BucketOK (channelRow s maxFrames ch) s.width frameCount (j + 1) b := by
  have hstart : AtBoundary s.width frameCount 0 1 :=
    ⟨le_refl _, by simp, fun _ => rfl, fun h => absurd h (by decide)⟩
  have hspec := fun ch =>
    pixelLoop_spec (channelRow s maxFrames ch) s.width frameCount fuel hw hfw hfuel
      s.width 0 1 (by omega) hstart
  refine ⟨fun ch => (pixelLoop fuel (channelRow s maxFrames ch)
    ((s.width : ℚ) / (frameCount : ℚ)) s.width 0 1).getD [], ?_, ?_⟩
  · unfold paint1D
    rw [if_neg (by omega)]
    simp only [Widget.rect]
    rw [if_neg (by omega), List.range_eq_range']
    refine chanLoop_some _ _ (fun ch => ?_) chanCount 0
    obtain ⟨bs, hbs, _, _⟩ := hspec ch
    simp only [bucketChannel, hbs, Option.getD_some, Widget.rect]
  · intro ch
    obtain ⟨bs, hbs, hlen, hidx⟩ := hspec ch
    simp only [hbs, Option.getD_some]
    refine ⟨trivial, hlen, fun j hj => ?_⟩
    obtain ⟨b, h1, h2⟩ := hidx j hj
    exact ⟨b, h1, by simpa using h2⟩

/-! ## Replaying the calls of `paint1D` -/

theorem plotY_eq (s : Widget) (overlapped : Bool) (chanCount ch : Nat) (v : ℚ) :
    (0 : ℚ) + 1 * ((s.rect.y : ℚ) + yOrigin overlapped (yHeight1D s overlapped chanCount) ch) +
        1 * yRatio1D s overlapped chanCount * v = plotY s overlapped chanCount ch v := by
  cases overlapped
  · simp only [yOrigin, yHeight1D, yRatio1D, plotY, Widget.rect]
    simp
    ring
  · simp only [yOrigin, yHeight1D, yRatio1D, plotY, Widget.rect]
    simp
    ring

theorem render_save (cs : List PaintCmd) (st : Painter) (stack : List Painter) :
    render (PaintCmd.save :: cs) st stack = render cs st (st :: stack) := rfl

theorem render_restore (cs : List PaintCmd) (st top : Painter) (stack : List Painter) :
    render (PaintCmd.restore :: cs) st (top :: stack) = render cs top stack := rfl

theorem render_translate (cs : List PaintCmd) (st : Painter) (stack : List Painter)
    (dx dy : ℚ) :
    render (PaintCmd.translate dx dy :: cs) st stack =
      render cs ⟨st.xf.translate dx dy, st.pen⟩ stack := rfl

theorem render_scale (cs : List PaintCmd) (st : Painter) (stack : List Painter) (kx ky : ℚ) :
    render (PaintCmd.scale kx ky :: cs) st stack =
      render cs ⟨st.xf.scale kx ky, st.pen⟩ stack := rfl

theorem render_setPen (cs : List PaintCmd) (st : Painter) (stack : List Painter) (c : QColor) :
    render (PaintCmd.setPen c :: cs) st stack = render cs ⟨st.xf, some c⟩ stack := rfl

theorem render_drawPath (cs : List PaintCmd) (st : Painter) (stack : List Painter)
    (pts : List (ℚ × ℚ)) :
    render (PaintCmd.drawPath pts :: cs) st stack =
      Shape.path st.pen (pts.map st.xf.apply) :: render cs st stack := rfl

theorem render_drawLine (cs : List PaintCmd) (st : Painter) (stack : List Painter)
    (x1 y1 x2 y2 : ℚ) :
    render (PaintCmd.drawLine x1 y1 x2 y2 :: cs) st stack =
      Shape.line st.pen (st.xf.apply (x1, y1)) (st.xf.apply (x2, y2)) :: render cs st stack := rfl

theorem render_lines (st : Painter) (stack : List Painter)
    (rest : List PaintCmd) (bs : List Bucket) :
    render (bs.map Bucket.line ++ rest) st stack =
      bs.map (fun b => Shape.line st.pen
        (st.xf.apply ((((b.pixel : Int) - 1 : Int) : ℚ), b.min))
        (st.xf.apply ((((b.pixel : Int) - 1 : Int) : ℚ), b.max))) ++
        render rest st stack := by
  induction bs with
  | nil => rfl
  | cons b bs ih =>
    rw [List.map_cons, List.cons_append, Bucket.line, render_drawLine, ih, List.map_cons,
      List.cons_append]

theorem render_bucketBlock (s : Widget) (overlapped : Bool) (chanCount ch : Nat)
    (bs : List Bucket) (rest : List PaintCmd) (stack : List Painter) :
    render (bucketBlock s overlapped (yRatio1D s overlapped chanCount)
        (yHeight1D s overlapped chanCount) ch bs ++ rest) Painter.fresh stack =
      bucketShapes s overlapped chanCount ch bs ++ render rest Painter.fresh stack := by
  simp only [bucketBlock, List.cons_append, List.nil_append, List.append_assoc, render_save,
    render_translate, render_scale, render_setPen, render_lines, render_restore]
  simp only [Painter.fresh, Xform.ident, Xform.translate, Xform.scale, Xform.apply,
    bucketShapes, plotY_eq]
  congr 1
  apply List.map_congr_left
  intro b _
  have hx : (0 : ℚ) + 1 * ((s.rect.x : Int) : ℚ) + 1 * 1 * ((((b.pixel : Int) - 1 : Int)) : ℚ) =
      (b.pixel : ℚ) - 1 := by
    simp [Widget.rect]
  rw [hx]

theorem pointPath_eq (xOffset : ℚ) (row : Nat → ℚ) (frameCount : Nat) (h : 1 ≤ frameCount) :
    pointPath xOffset row frameCount =
      (List.range frameCount).map (fun (f : Nat) => (xOffset + (f : ℚ), row f)) := by
  obtain ⟨k, rfl⟩ : ∃ k, frameCount = k + 1 := ⟨frameCount - 1, by omega⟩
  rw [List.range_eq_range', List.range'_succ]
  simp [pointPath]

theorem render_pointChannel (s : Widget) (overlapped : Bool)
    (chanCount maxFrames frameCount ch : Nat) (h : 1 ≤ frameCount)
    (rest : List PaintCmd) (stack : List Painter) :
    render (pointChannel s overlapped maxFrames frameCount (xRatio1D s frameCount)
        (yRatio1D s overlapped chanCount) (yHeight1D s overlapped chanCount) ch ++ rest)
        Painter.fresh stack =
      pointShape s overlapped chanCount maxFrames frameCount ch ::
        render rest Painter.fresh stack := by
  simp only [pointChannel, List.cons_append, List.nil_append, render_save,
    render_translate, render_scale, render_setPen, render_drawPath, render_restore]
  simp only [Painter.fresh, Xform.ident, Xform.translate, Xform.scale, pointShape,
    pointPath_eq _ _ _ h, List.map_map]
  congr 2
  apply List.map_congr_left
  intro f _
  simp only [Function.comp, Xform.apply, plotY_eq]
  refine Prod.ext ?_ rfl
  simp [plotX, xRatio1D, Widget.rect]

theorem render_bucket_channels (s : Widget) (overlapped : Bool) (chanCount : Nat)
    (tr : Nat → List Bucket) (chans : List Nat) :
    render (chans.flatMap (fun ch =>
        bucketBlock s overlapped (yRatio1D s overlapped chanCount)
          (yHeight1D s overlapped chanCount) ch (tr ch))) Painter.fresh [] =
      chans.flatMap (fun ch => bucketShapes s overlapped chanCount ch (tr ch)) := by
  induction chans with
  | nil => rfl
  | cons c cs ih => rw [List.flatMap_cons, render_bucketBlock, ih, List.flatMap_cons]

theorem render_point_channels (s : Widget) (overlapped : Bool)
    (chanCount maxFrames frameCount : Nat) (h : 1 ≤ frameCount) (chans : List Nat) :
    render (chans.flatMap
        (pointChannel s overlapped maxFrames frameCount (xRatio1D s frameCount)
          (yRatio1D s overlapped chanCount) (yHeight1D s overlapped chanCount)))
        Painter.fresh [] =
      chans.map (pointShape s overlapped chanCount maxFrames frameCount) := by
  induction chans with
  | nil => rfl
  | cons c cs ih => rw [List.flatMap_cons, render_pointChannel _ _ _ _ _ _ h, ih, List.map_cons]

theorem lineCount_append (xs ys : List PaintCmd) :
    lineCount (xs ++ ys) = lineCount xs + lineCount ys := by
  induction xs with
  | nil => simp [lineCount]
  | cons x xs ih =>
    cases x <;> simp [lineCount, ih]
    omega

theorem lineCount_lines (bs : List Bucket) : lineCount (bs.map Bucket.line) = bs.length := by
  induction bs with
  | nil => rfl
  | cons b bs ih => simp [lineCount, Bucket.line, ih]

theorem lineCount_bucketBlock (s : Widget) (overlapped : Bool) (yRatio yHeight : ℚ) (ch : Nat)
    (bs : List Bucket) : lineCount (bucketBlock s overlapped yRatio yHeight ch bs) = bs.length := by
  simp [bucketBlock, lineCount_append, lineCount_lines, lineCount]

theorem lineCount_channels (blk : Nat → List PaintCmd) (w : Nat)
    (h : ∀ ch, lineCount (blk ch) = w) (chans : List Nat) :
    lineCount (chans.flatMap blk) = chans.length * w := by
  induction chans with
  | nil => simp [lineCount]
  | cons c cs ih =>
    rw [List.flatMap_cons, lineCount_append, h c, ih, List.length_cons, Nat.succ_mul,
      Nat.add_comm]

/-! ## Facts about single iterations of the pixel loop -/

theorem AtBoundary_unique (w n p f g : Nat) (hf : AtBoundary w n p f) (hg : AtBoundary w n p g) :
    f = g := by
  obtain ⟨hf1, hf2, hf3, hf4⟩ := hf
  obtain ⟨hg1, hg2, hg3, hg4⟩ := hg
  rcases Nat.eq_zero_or_pos p with h | h
  · rw [hf3 h, hg3 h]
  · have hf5 := hf4 h
    have hg5 := hg4 h
    rcases Nat.lt_trichotomy f g with hlt | heq | hgt
    · have : f * w ≤ (g - 1) * w := Nat.mul_le_mul_right w (by omega)
      omega
    · exact heq
    · have : g * w ≤ (f - 1) * w := Nat.mul_le_mul_right w (by omega)
      omega

theorem AtBoundary_le (w n p f : Nat) (hpw : p ≤ w) (hn : 1 ≤ n) (hf : AtBoundary w n p f) :
    f ≤ n := by
  obtain ⟨hf1, hf2, hf3, hf4⟩ := hf
  rcases Nat.eq_zero_or_pos p with h | h
  · rw [hf3 h]
    exact hn
  · have h1 := hf4 h
    have h2 : p * n ≤ w * n := Nat.mul_le_mul_right n hpw
    have h3 : (f - 1) * w < n * w := by
      rw [Nat.mul_comm n w]
      omega
    have h4 : f - 1 < n := Nat.lt_of_mul_lt_mul_right h3
    omega

theorem covers_lt (row : Nat → ℚ) (w n p : Nat) (b : Bucket) (hp : 1 ≤ p) (hpw : p ≤ w)
    (hwn : w ≤ n) (hb : BucketOK row w n p b) (g : Nat) (hg : b.covers g) : g < n := by
  obtain ⟨_, hfirst, hnext, hle, _, _, _⟩ := hb
  have h1 := AtBoundary_le w n p b.next hpw (by omega) hnext
  have h2 := hfirst.1
  rcases hg with h | ⟨_, h⟩ <;> omega

/-! ## Bucket mode: what each segment shows -/

theorem mem_trace (row : Nat → ℚ) (w n : Nat) (l : List Bucket) (hlen : l.length = w)
    (hidx : ∀ j, j < w → ∃ b, l[j]? = some b ∧ BucketOK row w n (j + 1) b)
    (b : Bucket) (hb : b ∈ l) : ∃ p, 1 ≤ p ∧ p ≤ w ∧ l[p - 1]? = some b ∧ BucketOK row w n p b := by
  obtain ⟨j, hj⟩ := List.mem_iff_getElem?.1 hb
  obtain ⟨hjl, _⟩ := List.getElem?_eq_some.1 hj
  obtain ⟨b1, h1, h2⟩ := hidx j (by omega)
  have hbb : b1 = b := by
    rw [hj] at h1
    exact (Option.some.inj h1).symm
  subst hbb
  exact ⟨j + 1, by omega, by omega, by simpa using hj, h2⟩

theorem pointVertices_getElem? (s : Widget) (overlapped : Bool)
    (chanCount maxFrames frameCount ch f : Nat) (hf : f < frameCount) :
    (pointVertices s overlapped chanCount maxFrames frameCount ch)[f]? =
      some (plotX s frameCount f,
        plotY s overlapped chanCount ch (channelRow s maxFrames ch f)) := by
  simp [pointVertices, List.getElem?_range hf]

theorem pointVertices_x (s : Widget) (overlapped : Bool)
    (chanCount maxFrames frameCount ch f : Nat) (a : ℚ × ℚ)
    (h : (pointVertices s overlapped chanCount maxFrames frameCount ch)[f]? = some a) :
    f < frameCount ∧ a.1 = plotX s frameCount f ∧
      a.2 = plotY s overlapped chanCount ch (channelRow s maxFrames ch f) := by
  have hf : f < frameCount := by
    obtain ⟨hlt, _⟩ := List.getElem?_eq_some.1 h
    simpa [pointVertices] using hlt
  rw [pointVertices_getElem? _ _ _ _ _ _ _ hf] at h
  have := Option.some.inj h
  subst this
  exact ⟨hf, rfl, rfl⟩

theorem render_paint1D_point (fuel : Nat) (s : Widget) (overlapped : Bool)
    (chanCount maxFrames frameCount : Nat) (hav : 2 ≤ s._availableFrames)
    (h1 : 1 ≤ frameCount) (hlt : frameCount < s.width) :
    ∃ cmds, paint1D fuel s overlapped chanCount maxFrames frameCount = some cmds ∧
      cmds = (List.range chanCount).flatMap
        (pointChannel s overlapped maxFrames frameCount (xRatio1D s frameCount)
          (yRatio1D s overlapped chanCount) (yHeight1D s overlapped chanCount)) ∧
      render cmds Painter.fresh [] =
        (List.range chanCount).map (fun ch =>
          Shape.path (some (channelColor s.colors ch))
            (pointVertices s overlapped chanCount maxFrames frameCount ch)) := by
  refine ⟨_, paint1D_point_eq fuel s overlapped chanCount maxFrames frameCount hav hlt, rfl, ?_⟩
  rw [render_point_channels s overlapped chanCount maxFrames frameCount h1]
  rfl

theorem plotX_lt (s : Widget) (frameCount f g : Nat) (h2 : 2 ≤ frameCount)
    (hw : 0 < s.width) (hz : 0 < s.xZoom) (hfg : f < g) :
    plotX s frameCount f < plotX s frameCount g := by
  unfold plotX
  have hw' : (0 : ℚ) < (s.width : ℚ) := by exact_mod_cast hw
  have hd : (0 : ℚ) < (frameCount : ℚ) - 1 := by
    have : (2 : ℚ) ≤ (frameCount : ℚ) := by exact_mod_cast h2
    linarith
  have hr : (0 : ℚ) < s.xZoom * (s.width : ℚ) / ((frameCount : ℚ) - 1) :=
    div_pos (mul_pos hz hw') hd
  have hfg' : (f : ℚ) < (g : ℚ) := by exact_mod_cast hfg
  exact mul_lt_mul_of_pos_left (by linarith) hr

/-- C5, amended (point-mode monotonicity): in point mode (`2 ≤ frameCount < W`)
with `xZoom > 0`, every channel's path has `frameCount` vertices on the
surface, vertex `f` at `x = xZoom * W / (frameCount - 1) * (xOffset + f)`, and
these x-coordinates are strictly increasing with the frame index. -/
theorem paint1D_point_x_increasing (fuel : Nat) (s : Widget) (overlapped : Bool)
    (chanCount maxFrames frameCount : Nat) (hav : 2 ≤ s._availableFrames)
    (h2 : 2 ≤ frameCount) (hlt : frameCount < s.width) (hz : 0 < s.xZoom) :
    ∃ (cmds : List PaintCmd) (paths : Nat → List (ℚ × ℚ)),
      paint1D fuel s overlapped chanCount maxFrames frameCount = some cmds ∧
      render cmds Painter.fresh [] =
        (List.range chanCount).map (fun ch =>
          Shape.path (some (channelColor s.colors ch)) (paths ch)) ∧
      ∀ ch, (paths ch).length = frameCount ∧
        (∀ f, f < frameCount → ∃ a, (paths ch)[f]? = some a ∧
          a.1 = s.xZoom * (s.width : ℚ) / ((frameCount : ℚ) - 1) * (s.xOffset + (f : ℚ))) ∧
        ∀ (f g : Nat) (a b : ℚ × ℚ), f < g → (paths ch)[f]? = some a →
          (paths ch)[g]? = some b → a.1 < b.1 := by
  obtain ⟨cmds, hc1, _, hc3⟩ :=
    render_paint1D_point fuel s overlapped chanCount maxFrames frameCount hav (by omega) hlt
  refine ⟨cmds, pointVertices s overlapped chanCount maxFrames frameCount, hc1, hc3,
    fun ch => ⟨by simp [pointVertices], fun f hf => ?_, fun f g a b hfg ha hb => ?_⟩⟩
  · exact ⟨_, pointVertices_getElem? _ _ _ _ _ _ _ hf, rfl⟩
  · obtain ⟨_, ha1, _⟩ := pointVertices_x _ _ _ _ _ _ _ _ ha
    obtain ⟨_, hb1, _⟩ := pointVertices_x _ _ _ _ _ _ _ _ hb
    rw [ha1, hb1]
    exact plotX_lt s frameCount f g h2 (by omega) hz hfg

/-- A 200 pixel wide widget with the default `xZoom = 1` holding 50 frames
meets the hypotheses of `paint1D_point_x_increasing`. -/
theorem paint1D_point_x_increasing_witness :
    2 ≤ (sampleWidget 200 100 50)._availableFrames ∧ 50 < (sampleWidget 200 100 50).width ∧
      0 < (sampleWidget 200 100 50).xZoom ∧
      ∃ (cmds : List PaintCmd) (paths : Nat → List (ℚ × ℚ)),
        paint1D 0 (sampleWidget 200 100 50) false 2 512 50 = some cmds ∧
        ∀ ch, (paths ch).length = 50 := by
  have hz : (0 : ℚ) < (sampleWidget 200 100 50).xZoom := by
    show (0 : ℚ) < 1
    norm_num
  refine ⟨by decide, by decide, hz, ?_⟩
  obtain ⟨cmds, paths, h1, _, h3⟩ :=
    paint1D_point_x_increasing 0 (sampleWidget 200 100 50) false 2 512 50
      (by decide) (by decide) (by decide) hz
  exact ⟨cmds, paths, h1, fun ch => (h3 ch).1⟩

/-- C5, counterexample: a 3 pixel wide widget with `xZoom = -1` showing two
frames of two channels is in point mode (`2 ≤ 2 < 3`); the path of channel 0
has vertex 0 at `x = 0` and vertex 1 at `x = -3`, so its x-coordinates are not
increasing with the frame index. -/
theorem paint1D_point_x_not_increasing :
    ∃ (cmds : List PaintCmd) (paths : Nat → List (ℚ × ℚ)),
      paint1D 0 { sampleWidget 3 100 2 with xZoom := -1 } false 2 512 2 = some cmds ∧
      render cmds Painter.fresh [] =
        (List.range 2).map (fun ch =>
          Shape.path (some (channelColor (sampleWidget 3 100 2).colors ch)) (paths ch)) ∧
      paths 0 = [(0, 100), (-3, 75)] ∧
      ¬ (∀ (f g : Nat) (a b : ℚ × ℚ), f < g → (paths 0)[f]? = some a →
          (paths 0)[g]? = some b → a.1 < b.1) := by
  obtain ⟨cmds, hc1, _, hc3⟩ :=
    render_paint1D_point 0 { sampleWidget 3 100 2 with xZoom := -1 } false 2 512 2
      (by decide) (by decide) (by decide)
  have hpath : pointVertices { sampleWidget 3 100 2 with xZoom := -1 } false 2 512 2 0 =
      [(0, 100), (-3, 75)] := by
    simp only [List.range_succ, List.range_zero, List.nil_append, List.map_cons, List.map_nil,
      pointVertices, List.cons_append, plotX, plotY, channelRow, sampleWidget,
      Widget.init, Widget.rect]
    norm_num
  refine ⟨cmds, pointVertices { sampleWidget 3 100 2 with xZoom := -1 } false 2 512 2,
    hc1, hc3, hpath, fun h => ?_⟩
  have h01 := h 0 1 (0, 100) (-3, 75) (by decide) (by rw [hpath]; rfl) (by rw [hpath]; rfl)
  norm_num at h01

theorem plotX_pitch (s : Widget) (frameCount f : Nat) :
    plotX s frameCount (f + 1) - plotX s frameCount f =
      s.xZoom * (s.width : ℚ) / ((frameCount : ℚ) - 1) := by
  unfold plotX
  push_cast
  ring

theorem plotY_strictAnti (s : Widget) (overlapped : Bool) (chanCount ch : Nat)
    (hc : 1 ≤ chanCount) (hz : 0 < s.yZoom) (hh : 0 < s.height) (v1 v2 : ℚ) (hv : v1 < v2) :
    plotY s overlapped chanCount ch v2 < plotY s overlapped chanCount ch v1 := by
  have hh' : (0 : ℚ) < (s.height : ℚ) := by exact_mod_cast hh
  have hc' : (0 : ℚ) < (chanCount : ℚ) := by exact_mod_cast hc
  cases overlapped
  · simp only [plotY, Bool.false_eq_true, if_false]
    have hk : (0 : ℚ) < s.yZoom * ((s.height : ℚ) / (chanCount : ℚ)) * (1 / 2) :=
      mul_pos (mul_pos hz (div_pos hh' hc')) (by norm_num)
    have := mul_lt_mul_of_pos_left hv hk
    linarith
  · simp only [plotY, if_true]
    have hk : (0 : ℚ) < s.yZoom * ((s.height : ℚ) / 2) :=
      mul_pos hz (div_pos hh' (by norm_num))
    have := mul_lt_mul_of_pos_left hv hk
    linarith

theorem plotY_band (s : Widget) (chanCount ch : Nat) (hz : s.yZoom = 1) (v : ℚ)
    (h1 : -1 ≤ v) (h2 : v ≤ 1) :
    (ch : ℚ) * ((s.height : ℚ) / (chanCount : ℚ)) ≤ plotY s false chanCount ch v ∧
      plotY s false chanCount ch v ≤ ((ch : ℚ) + 1) * ((s.height : ℚ) / (chanCount : ℚ)) := by
  have hb : (0 : ℚ) ≤ (s.height : ℚ) / (chanCount : ℚ) :=
    div_nonneg (Nat.cast_nonneg _) (Nat.cast_nonneg _)
  simp only [plotY, Bool.false_eq_true, if_false, hz, Widget.rect, Int.cast_zero]
  constructor
  · nlinarith
  · nlinarith

/-- C11 (endpoint is immutable while running): while `_running` holds,
`setServerPort` returns the widget state unchanged for every port; while it
does not hold, `setServerPort` stores the port in `_srvPort` and changes no
other member. -/
theorem setServerPort_spec (port : Int) (s : Widget) :
    (s._running = true → setServerPort port s = s) ∧
      (s._running = false → setServerPort port s = { s with _srvPort := port }) := by
  constructor
  · intro h
    simp [setServerPort, h]
  · intro h
    simp [setServerPort, h]

/-- Changing the port of the running sample widget is refused, and the stopped
configured widget takes the new port. -/
theorem setServerPort_spec_witness :
    (sampleWidget 200 100 50)._running = true ∧
      setServerPort 57120 (sampleWidget 200 100 50) = sampleWidget 200 100 50 ∧
      configuredWidget._running = false ∧
      (setServerPort 57120 configuredWidget)._srvPort = 57120 := by
  refine ⟨rfl, (setServerPort_spec 57120 (sampleWidget 200 100 50)).1 rfl, rfl, ?_⟩
  rw [(setServerPort_spec 57120 configuredWidget).2 rfl]

/-! ## The poll tick -/

/-- C13 (tick semantics): `updateScope` requests a redraw exactly when the
reader is valid and `pull` reports new data; then `_data` is the reader's data
pointer and `_availableFrames` the count written by `pull`, and nothing else
changes.  With an invalid reader the state is returned unchanged whatever
`pull` would have answered (it is not called). -/
theorem updateScope_spec (r : ReaderTick) (s : Widget) :
    ((updateScope r s).2 = true ↔
        (s._shmReader.valid = true ∧ (r.pull s._availableFrames).1 = true)) ∧
      ((updateScope r s).2 = true →
        (updateScope r s).1 =
          { s with _data := r.data, _availableFrames := (r.pull s._availableFrames).2 }) ∧
      (s._shmReader.valid = false →
        ∀ r1 : ReaderTick, updateScope r1 s = (s, false)) := by
  refine ⟨?_, ?_, ?_⟩
  · unfold updateScope
    by_cases hv : s._shmReader.valid = true
    · by_cases hok : (r.pull s._availableFrames).1 = true
      · simp [hv, hok]
      · simp [hv, hok]
    · simp [hv]
  · unfold updateScope
    by_cases hv : s._shmReader.valid = true
    · by_cases hok : (r.pull s._availableFrames).1 = true
      · simp [hv, hok]
      · simp [hv, hok]
    · simp [hv]
  · intro hv r1
    simp [updateScope, hv]

/-- On the running sample widget a pull that reports 64 new frames requests a
redraw and stores that count. -/
theorem updateScope_spec_witness :
    (updateScope ⟨fun _ => (true, 64), ⟨some 1, fun _ => 0⟩⟩ (sampleWidget 200 100 50)).2 = true ∧
      (updateScope ⟨fun _ => (true, 64), ⟨some 1, fun _ => 0⟩⟩
        (sampleWidget 200 100 50)).1._availableFrames = 64 := by
  have h := updateScope_spec ⟨fun _ => (true, 64), ⟨some 1, fun _ => 0⟩⟩ (sampleWidget 200 100 50)
  have h2 : (updateScope ⟨fun _ => (true, 64), ⟨some 1, fun _ => 0⟩⟩
      (sampleWidget 200 100 50)).2 = true := h.1.2 ⟨rfl, rfl⟩
  refine ⟨h2, ?_⟩
  rw [h.2.1 h2]

/-! ## Painting without data -/

/-- C14 (absence of data renders nothing): `paintEvent` makes the background
fill its only painter call whenever the widget is not running or holds no
frame, and, in the two 1D styles 0 and 1, whenever it holds fewer than two
frames. -/
theorem paintEvent_background_only (fuel : Nat) (s : Widget)
    (h : s._running = false ∨ s._availableFrames = 0 ∨
      ((s._style = 0 ∨ s._style = 1) ∧ s._availableFrames < 2)) :
    paintEvent fuel s = some [PaintCmd.fillRect s.rect s._bkg] := by
  unfold paintEvent
  rcases h with h | h | ⟨hs, hlt⟩
  · simp [h]
  · simp [h]
  · by_cases hr : (!s._running || s._availableFrames == 0) = true
    · rw [if_pos hr]
    · rw [if_neg hr]
      have hp : ∀ ov cc mf, paint1D fuel s ov cc mf s._availableFrames = some [] := by
        intro ov cc mf
        unfold paint1D
        rw [if_pos hlt]
      rcases hs with hs | hs
      · simp [hs, hp]
      · simp [hs, hp]

/-- The running sample widget holding a single frame in style 0 paints only
its background, as does the stopped configured widget. -/
theorem paintEvent_background_only_witness :
    ((sampleWidget 200 100 1)._style = 0 ∧ (sampleWidget 200 100 1)._availableFrames < 2) ∧
      paintEvent 0 (sampleWidget 200 100 1) =
        some [PaintCmd.fillRect ⟨0, 0, 200, 100⟩ (QColor.rgb 0 0 0)] := by
  refine ⟨⟨rfl, by decide⟩, ?_⟩
  exact paintEvent_background_only 0 (sampleWidget 200 100 1)
    (Or.inr (Or.inr ⟨Or.inl rfl, by decide⟩))

/-! ## Invariants of the reachable states -/

theorem start_eq (env : ShmEnv) (s : Widget) :
    start env s = s ∨ start env s = stop s ∨
      ∃ shm, s._running = false ∧ env.connect s._srvPort = some shm ∧
        start env s =
          { s with
            _shmClient := some shm
            _shmReader := env.get_scope_buffer_reader shm s._scopeIndex
            timer := { s.timer with active := true }
            _running := true } := by
  unfold start
  by_cases hr : s._running = true
  · rw [if_pos hr]
    exact Or.inl rfl
  · rw [if_neg hr]
    by_cases hg : s._srvPort < 0 ∨ s._scopeIndex < 0
    · rw [if_pos hg]
      exact Or.inl rfl
    · rw [if_neg hg]
      cases hc : env.connect s._srvPort with
      | none =>
        refine Or.inr (Or.inl ?_)
        simp only [connectSharedMemory, hc]
        rfl
      | some shm =>
        refine Or.inr (Or.inr ⟨shm, by simpa using hr, rfl, ?_⟩)
        simp only [connectSharedMemory, hc, initScopeReader]

theorem setBufferNumber_eq (env : ShmEnv) (n : Int) (s t : Widget)
    (h : setBufferNumber env n s = some t) :
    t._running = s._running ∧ t._shmClient = s._shmClient ∧ t.timer = s.timer ∧
      t._data = s._data ∧ t._availableFrames = s._availableFrames := by
  unfold setBufferNumber at h
  by_cases hr : s._running = true
  · rw [if_pos hr] at h
    cases hc : s._shmClient with
    | none => simp [hc] at h
    | some shm =>
      simp only [hc, Option.some.injEq] at h
      subst h
      simp [initScopeReader, hc]
  · rw [if_neg hr] at h
    simp only [Option.some.injEq] at h
    subst h
    simp

theorem updateScope_keeps (r : ReaderTick) (s : Widget) :
    (updateScope r s).1._running = s._running ∧
      (updateScope r s).1._shmClient = s._shmClient ∧ (updateScope r s).1.timer = s.timer := by
  unfold updateScope
  by_cases hv : s._shmReader.valid = true
  · by_cases hok : (r.pull s._availableFrames).1 = true
    · simp [hv, hok]
    · simp [hv, hok]
  · simp [hv]

theorem reachable_linked (s : Widget) (h : Reachable s) :
    s._shmClient.isSome = s._running ∧ s.timer.active = s._running := by
  induction h with
  | init width height => exact ⟨rfl, rfl⟩
  | byStart env s _ ih =>
    rcases start_eq env s with h | h | ⟨shm, _, _, h⟩
    · rw [h]
      exact ih
    · rw [h]
      exact ⟨rfl, rfl⟩
    · rw [h]
      exact ⟨rfl, rfl⟩
  | byStop s _ _ => exact ⟨rfl, rfl⟩
  | bySetServerPort port s _ ih =>
    unfold setServerPort
    split
    · exact ih
    · exact ih
  | bySetBufferNumber env n s t _ ht ih =>
    obtain ⟨h1, h2, h3, _, _⟩ := setBufferNumber_eq env n s t ht
    rw [h1, h2, h3]
    exact ih
  | bySetUpdateInterval interval s _ ih => exact ih
  | bySetWaveColors newColors s _ ih => exact ih
  | byTick r s _ ih =>
    obtain ⟨h1, h2, h3⟩ := updateScope_keeps r s
    rw [h1, h2, h3]
    exact ih

/-- C12 (at most one live mapping): in every state reachable from the
constructor, `_running` holds exactly when a shared-memory client is held and
exactly when the timer is active.  Hence `start` on a state that holds a
client returns it unchanged (no second connection is opened), `start` on a
running state changes nothing, and `setBufferNumber` never calls through a
null client. -/
theorem reachable_one_mapping (s : Widget) (h : Reachable s) :
    (s._running = true ↔ s._shmClient.isSome = true) ∧
      (s._running = true ↔ s.timer.active = true) ∧
      (∀ env : ShmEnv, s._shmClient.isSome = true → start env s = s) ∧
      (∀ env : ShmEnv, s._running = true → start env s = s) ∧
      (∀ (env : ShmEnv) (n : Int), (setBufferNumber env n s).isSome = true) := by
  obtain ⟨h1, h2⟩ := reachable_linked s h
  have hrun : ∀ env : ShmEnv, s._running = true → start env s = s := by
    intro env hr
    unfold start
    rw [if_pos hr]
  refine ⟨by rw [h1], by rw [h2], fun env hc => hrun env (by rw [← h1]; exact hc), hrun, ?_⟩
  intro env n
  unfold setBufferNumber
  by_cases hr : s._running = true
  · rw [if_pos hr]
    cases hc : s._shmClient with
    | none =>
      rw [hc, hr] at h1
      simp at h1
    | some shm => rfl
  · rw [if_neg hr]
    rfl

/-- The configured widget started against a server that accepts the connection
is reachable; it is running, holds a client and its timer is active. -/
theorem reachable_one_mapping_witness :
    Reachable (start acceptingServer (setBufferNumberOrSame acceptingServer 0
        (setServerPort 57110 (Widget.init 200 100)))) ∧
      ((start acceptingServer (setBufferNumberOrSame acceptingServer 0
        (setServerPort 57110 (Widget.init 200 100))))._running = true ↔
        (start acceptingServer (setBufferNumberOrSame acceptingServer 0
          (setServerPort 57110 (Widget.init 200 100))))._shmClient.isSome = true) ∧
      (start acceptingServer (setBufferNumberOrSame acceptingServer 0
        (setServerPort 57110 (Widget.init 200 100))))._running = true := by
  have hr : Reachable (start acceptingServer (setBufferNumberOrSame acceptingServer 0
      (setServerPort 57110 (Widget.init 200 100)))) :=
    Reachable.byStart _ _
      (Reachable.bySetBufferNumber acceptingServer 0 _ _
        (Reachable.bySetServerPort 57110 _ (Reachable.init 200 100)) rfl)
  exact ⟨hr, (reachable_one_mapping _ hr).1, rfl⟩

theorem start_interval (env : ShmEnv) (s : Widget) :
    (start env s).timer.interval = s.timer.interval := by
  rcases start_eq env s with h | h | ⟨shm, _, _, h⟩
  · rw [h]
  · rw [h]
    rfl
  · rw [h]

/-- C17 (poll interval clamp): after `setUpdateInterval i` the method
`updateInterval` returns `max 0 i`, so a negative argument gives 0; the
interval is 50 after construction; and it is non-negative in every reachable
state. -/
theorem updateInterval_clamped :
    (∀ (i : Int) (s : Widget), updateInterval (setUpdateInterval i s) = max 0 i) ∧
      (∀ (i : Int) (s : Widget), i < 0 → updateInterval (setUpdateInterval i s) = 0) ∧
      (∀ width height : Nat, updateInterval (Widget.init width height) = 50) ∧
      (∀ s : Widget, Reachable s → 0 ≤ updateInterval s) := by
  refine ⟨fun _ _ => rfl, fun i s hi => ?_, fun _ _ => rfl, fun s h => ?_⟩
  · show max 0 i = 0
    exact max_eq_left (le_of_lt hi)
  · unfold updateInterval
    induction h with
    | init width height =>
      show (0 : Int) ≤ 50
      decide
    | byStart env s _ ih =>
      rw [start_interval]
      exact ih
    | byStop s _ ih => exact ih
    | bySetServerPort port s _ ih =>
      unfold setServerPort
      split
      · exact ih
      · exact ih
    | bySetBufferNumber env n s t _ ht ih =>
      rw [(setBufferNumber_eq env n s t ht).2.2.1]
      exact ih
    | bySetUpdateInterval interval s _ _ => exact le_max_left 0 interval
    | bySetWaveColors newColors s _ ih => exact ih
    | byTick r s _ ih =>
      rw [(updateScope_keeps r s).2.2]
      exact ih

/-- Setting the interval of a fresh widget to -5 leaves it reachable with
interval 0. -/
theorem updateInterval_clamped_witness :
    Reachable (setUpdateInterval (-5) (Widget.init 200 100)) ∧
      updateInterval (setUpdateInterval (-5) (Widget.init 200 100)) = 0 ∧
      0 ≤ updateInterval (setUpdateInterval (-5) (Widget.init 200 100)) := by
  have hr : Reachable (setUpdateInterval (-5) (Widget.init 200 100)) :=
    Reachable.bySetUpdateInterval (-5) _ (Reachable.init 200 100)
  exact ⟨hr, updateInterval_clamped.2.1 (-5) _ (by decide), updateInterval_clamped.2.2.2 _ hr⟩

/-! ## Colours -/

theorem waveColors_fold (newColors : List QColor) :
    ∀ acc : List QColor,
      newColors.foldl
        (fun acc color => if !color.valid then acc ++ [QColor.rgb 0 0 0] else acc ++ [color]) acc =
      acc ++ newColors.map (fun c => if c.valid then c else QColor.rgb 0 0 0) := by
  induction newColors with
  | nil => intro acc; simp
  | cons c cs ih =>
    intro acc
    rw [List.foldl_cons, ih]
    cases hv : c.valid <;> simp [hv]

theorem channelColor_lt (colors : List QColor) (ch : Nat) (h : ch < colors.length) :
    channelColor colors ch = colors.get ⟨ch, h⟩ := by
  unfold channelColor
  rw [dif_pos h]

theorem channelColor_ge (colors : List QColor) (ch : Nat) (h : colors.length ≤ ch) :
    channelColor colors ch = QColor.rgb 255 255 255 := by
  unfold channelColor
  rw [dif_neg (by omega)]

theorem setPen_mem_lines (c : QColor) (bs : List Bucket) :
    PaintCmd.setPen c ∉ bs.map Bucket.line := by
  intro h
  obtain ⟨b, _, hb⟩ := List.mem_map.1 h
  simp [Bucket.line] at hb

/-- C16 (channel colour lookup): in both regimes the only pen `paint1D` sets in
the block of channel `ch` is `channelColor colors ch`, which is entry `ch` of the
colour list when `ch` is below its length and white `(255,255,255)` otherwise,
independently of the channel count; `paint2D` sets entry 0, or white when the
list is empty; and `setWaveColors` stores a list as long as its argument whose
entry `i` is the argument's entry `i` (black where that colour is invalid). -/
theorem channel_colours (s : Widget) :
    (∀ (ch : Nat) (h : ch < s.colors.length), channelColor s.colors ch = s.colors.get ⟨ch, h⟩) ∧
      (∀ ch : Nat, s.colors.length ≤ ch → channelColor s.colors ch = QColor.rgb 255 255 255) ∧
      (∀ (overlapped : Bool) (maxFrames frameCount ch : Nat) (xRatio yRatio yHeight : ℚ)
          (c : QColor),
        PaintCmd.setPen c ∈
            pointChannel s overlapped maxFrames frameCount xRatio yRatio yHeight ch ↔
          c = channelColor s.colors ch) ∧
      (∀ (overlapped : Bool) (ch : Nat) (yRatio yHeight : ℚ) (buckets : List Bucket)
          (c : QColor),
        PaintCmd.setPen c ∈ bucketBlock s overlapped yRatio yHeight ch buckets ↔
          c = channelColor s.colors ch) ∧
      (∀ (chanCount maxFrames frameCount : Nat) (c : QColor),
        PaintCmd.setPen c ∈ paint2D s chanCount maxFrames frameCount ↔
          c = (if h : 0 < s.colors.length then s.colors.get ⟨0, h⟩
            else QColor.rgb 255 255 255)) ∧
      (∀ newColors : List QColor,
        (setWaveColors newColors s).colors.length = newColors.length ∧
        ∀ (i : Nat) (h : i < newColors.length),
          (setWaveColors newColors s).colors[i]? =
            some (if (newColors.get ⟨i, h⟩).valid then newColors.get ⟨i, h⟩
              else QColor.rgb 0 0 0)) := by
  refine ⟨channelColor_lt s.colors, channelColor_ge s.colors, ?_, ?_, ?_, ?_⟩
  · intro overlapped maxFrames frameCount ch xRatio yRatio yHeight c
    simp [pointChannel]
  · intro overlapped ch yRatio yHeight buckets c
    have hl := setPen_mem_lines c buckets
    simp [bucketBlock, hl]
  · intro chanCount maxFrames frameCount c
    by_cases h0 : 0 < s.colors.length
    · have hne : s.colors.length ≠ 0 := by omega
      simp [paint2D, hne, h0, channelColor]
    · have hz : s.colors.length = 0 := by omega
      simp [paint2D, hz]
  · intro newColors
    have hc : (setWaveColors newColors s).colors =
        newColors.map (fun c => if c.valid then c else QColor.rgb 0 0 0) := by
      simp only [setWaveColors]
      rw [waveColors_fold]
      simp
    rw [hc]
    refine ⟨by simp, fun i h => ?_⟩
    rw [List.getElem?_map, List.getElem?_eq_getElem h]
    rfl

/-- C20 (unused transform parameters): `yOffset` never changes what
`paintEvent` paints, in any style; `xZoom` and `xOffset` change neither what
`paint2D` paints nor what `paint1D` paints in bucket mode, so `paintEvent` can
depend on them only when it runs a 1D style in point mode
(`2 ≤ _availableFrames < width`). -/
theorem unused_transform_parameters (fuel : Nat) (s : Widget) (y xz xo : ℚ) :
    paintEvent fuel { s with yOffset := y } = paintEvent fuel s ∧
      (∀ overlapped chanCount maxFrames frameCount,
        paint1D fuel { s with yOffset := y } overlapped chanCount maxFrames frameCount =
          paint1D fuel s overlapped chanCount maxFrames frameCount) ∧
      (∀ chanCount maxFrames frameCount,
        paint2D { s with yOffset := y } chanCount maxFrames frameCount =
          paint2D s chanCount maxFrames frameCount) ∧
      (∀ chanCount maxFrames frameCount,
        paint2D { s with xZoom := xz, xOffset := xo } chanCount maxFrames frameCount =
          paint2D s chanCount maxFrames frameCount) ∧
      (∀ overlapped chanCount maxFrames frameCount, ¬ frameCount < s.width →
        paint1D fuel { s with xZoom := xz, xOffset := xo } overlapped chanCount maxFrames
            frameCount =
          paint1D fuel s overlapped chanCount maxFrames frameCount) ∧
      (¬ (s._running = true ∧ (s._style = 0 ∨ s._style = 1) ∧
          2 ≤ s._availableFrames ∧ s._availableFrames < s.width) →
        paintEvent fuel { s with xZoom := xz, xOffset := xo } = paintEvent fuel s) := by
  have hb : ∀ overlapped chanCount maxFrames frameCount, ¬ frameCount < s.width →
      paint1D fuel { s with xZoom := xz, xOffset := xo } overlapped chanCount maxFrames
          frameCount =
        paint1D fuel s overlapped chanCount maxFrames frameCount := by
    intro overlapped chanCount maxFrames frameCount hge
    unfold paint1D
    by_cases hav : s._availableFrames < 2
    · rw [if_pos hav, if_pos hav]
    · rw [if_neg hav, if_neg hav]
      simp only [Widget.rect]
      rw [if_neg hge, if_neg hge]
      rfl
  refine ⟨rfl, fun _ _ _ _ => rfl, fun _ _ _ => rfl, fun _ _ _ => rfl, hb, fun hne => ?_⟩
  have hp : s._running = true → (s._style = 0 ∨ s._style = 1) →
      ∀ overlapped chanCount maxFrames,
        paint1D fuel { s with xZoom := xz, xOffset := xo } overlapped chanCount maxFrames
            s._availableFrames =
          paint1D fuel s overlapped chanCount maxFrames s._availableFrames := by
    intro hrun hs overlapped chanCount maxFrames
    by_cases hav : s._availableFrames < 2
    · unfold paint1D
      rw [if_pos hav, if_pos hav]
    · by_cases hw : s._availableFrames < s.width
      · exact absurd ⟨hrun, hs, by omega, hw⟩ hne
      · exact hb overlapped chanCount maxFrames s._availableFrames hw
  unfold paintEvent
  dsimp only
  by_cases hr : (!s._running || s._availableFrames == 0) = true
  · rw [if_pos hr, if_pos hr]
    rfl
  · rw [if_neg hr, if_neg hr]
    have hrun : s._running = true := by
      simp at hr
      exact hr.1
    by_cases h0 : s._style = 0
    · rw [if_pos h0, if_pos h0, hp hrun (Or.inl h0)]
      rfl
    · rw [if_neg h0, if_neg h0]
      by_cases h1 : s._style = 1
      · rw [if_pos h1, if_pos h1, hp hrun (Or.inr h1)]
        rfl
      · rw [if_neg h1, if_neg h1]
        rfl

/-- A 3 pixel wide widget holding 7 frames is in bucket mode, where `xZoom` and
`xOffset` do not matter; `yOffset` never matters. -/
theorem unused_transform_parameters_witness :
    ¬ 7 < (sampleWidget 3 100 7).width ∧
      paint1D 7 { sampleWidget 3 100 7 with xZoom := 4, xOffset := 9 } false 2 512 7 =
        paint1D 7 (sampleWidget 3 100 7) false 2 512 7 ∧
      paintEvent 7 { sampleWidget 3 100 7 with yOffset := 5 } =
        paintEvent 7 (sampleWidget 3 100 7) := by
  have h := unused_transform_parameters 7 (sampleWidget 3 100 7) 5 4 9
  exact ⟨by decide, h.2.2.2.2.1 false 2 512 7 (by decide), h.1⟩

/-! ## The snapshot across a restart -/

/-- C18 (snapshot freshness), the code at the failing input: starting, receiving
100 frames from mapping 1, stopping and starting again (mapping 2) is a
reachable state in which `_running` holds and `_availableFrames` is still 100,
the held client is mapping 2 but `_data` still points into mapping 1, which
`stop` destroyed; no pull has happened since the restart, and `paintEvent`
draws a path from the samples behind that pointer. -/
theorem restart_keeps_stale_snapshot :
    Reachable restartedWidget ∧
      (start acceptingServer configuredWidget)._shmClient = some ⟨1⟩ ∧
      firstTick.data.owner = some 1 ∧
      restartedWidget._running = true ∧ restartedWidget._availableFrames = 100 ∧
      restartedWidget._shmClient = some ⟨2⟩ ∧ restartedWidget._data.owner = some 1 ∧
      ¬ SnapshotFresh restartedWidget ∧
      ∃ cmds, paintEvent 0 restartedWidget =
          some (PaintCmd.fillRect restartedWidget.rect restartedWidget._bkg :: cmds) ∧
        PaintCmd.drawPath (pointPath restartedWidget.xOffset
          (channelRow restartedWidget 512 0) 100) ∈ cmds := by
  have hreach : Reachable restartedWidget :=
    Reachable.byStart _ _ (Reachable.byStop _ (Reachable.byTick firstTick _
      (Reachable.byStart acceptingServer _
        (Reachable.bySetBufferNumber acceptingServer 0 _ configuredWidget
          (Reachable.bySetServerPort 57110 _ (Reachable.init 200 100)) rfl))))
  refine ⟨hreach, rfl, rfl, rfl, rfl, rfl, rfl, ?_, ?_⟩
  · intro h
    obtain ⟨c, hc1, hc2⟩ := h rfl (by decide)
    have h1 : c = ⟨2⟩ := (Option.some.inj hc1).symm
    subst h1
    have h2 := Option.some.inj hc2
    exact absurd h2 (by decide)
  · have hp := paint1D_point_eq 0 restartedWidget false 2 512 100 (by decide) (by decide)
    refine ⟨(List.range 2).flatMap
        (pointChannel restartedWidget false 512 100 (xRatio1D restartedWidget 100)
          (yRatio1D restartedWidget false 2) (yHeight1D restartedWidget false 2)), ?_, ?_⟩
    · unfold paintEvent
      have hr : ¬ ((!restartedWidget._running || restartedWidget._availableFrames == 0) = true) := by
        have : (!restartedWidget._running || restartedWidget._availableFrames == 0) = false := rfl
        rw [this]
        decide
      have hs : restartedWidget._style = 0 := rfl
      have hc : restartedWidget._shmReader.channels = 2 := rfl
      have hm : restartedWidget._shmReader.max_frames = 512 := rfl
      have ha : restartedWidget._availableFrames = 100 := rfl
      dsimp only
      rw [if_neg hr, if_pos hs, hc, hm, ha, hp]
      rfl
    · simp only [List.range_succ, List.range_zero, List.nil_append, List.flatMap_cons,
        List.flatMap_nil, List.cons_append, List.append_nil, pointChannel]
      simp

/-! ## Binary32 rounding -/

theorem roundHalfEven_near (y : ℚ) : |(roundHalfEven y : ℚ) - y| ≤ 1 / 2 := by
  have h1 : (⌊y⌋ : ℚ) ≤ y := Int.floor_le y
  have h2 : y < (⌊y⌋ : ℚ) + 1 := Int.lt_floor_add_one y
  unfold roundHalfEven
  rw [abs_le]
  split_ifs with ha hb hc
  · constructor <;> linarith
  · push_cast
    constructor <;> linarith
  · constructor <;> linarith
  · push_cast
    constructor <;> linarith

theorem roundHalfEven_eq_of_near (y : ℚ) (m : ℤ) (h : |y - (m : ℚ)| < 1 / 2) :
    roundHalfEven y = m := by
  rw [abs_lt] at h
  have hfl : ⌊y⌋ = m ∨ ⌊y⌋ = m - 1 := by
    have h1 : m - 1 ≤ ⌊y⌋ := by
      rw [Int.le_floor]
      push_cast
      linarith
    have h2 : ⌊y⌋ < m + 1 := by
      rw [Int.floor_lt]
      push_cast
      linarith
    omega
  unfold roundHalfEven
  rcases hfl with hf | hf
  · rw [hf]
    rw [if_pos (by linarith)]
  · rw [hf]
    have h3 : ¬ (y - ((m - 1 : ℤ) : ℚ) < 1 / 2) := by
      push_cast
      linarith
    have h4 : 1 / 2 < y - ((m - 1 : ℤ) : ℚ) := by
      push_cast
      linarith
    rw [if_neg h3, if_pos h4]
    omega

theorem roundHalfEven_intCast (k : ℤ) : roundHalfEven (k : ℚ) = k :=
  roundHalfEven_eq_of_near _ k (by simp)

theorem f32_of_pos (x : ℚ) (hx : 0 < x) :
    f32 x = (roundHalfEven (x / (2 : ℚ) ^ (Int.log 2 x - 23)) : ℚ) *
      (2 : ℚ) ^ (Int.log 2 x - 23) := by
  unfold f32
  rw [if_pos hx]

theorem two_zpow_pos (e : ℤ) : (0 : ℚ) < (2 : ℚ) ^ e := zpow_pos (by norm_num) e

theorem f32_near (x : ℚ) (hx : 0 < x) : |f32 x - x| ≤ x / 2 ^ 24 := by
  have he := two_zpow_pos (Int.log 2 x - 23)
  have hlow : (2 : ℚ) ^ (Int.log 2 x) ≤ x := by
    have := Int.zpow_log_le_self (b := 2) (r := x) (by norm_num) hx
    simpa using this
  have hsplit : (2 : ℚ) ^ (Int.log 2 x) = (2 : ℚ) ^ (Int.log 2 x - 23) * 2 ^ 23 := by
    rw [← zpow_natCast (2 : ℚ) 23, ← zpow_add₀ (by norm_num : (2 : ℚ) ≠ 0)]
    congr 1
    omega
  rw [f32_of_pos x hx]
  have hr := roundHalfEven_near (x / (2 : ℚ) ^ (Int.log 2 x - 23))
  have key : (roundHalfEven (x / (2 : ℚ) ^ (Int.log 2 x - 23)) : ℚ) * (2 : ℚ) ^ (Int.log 2 x - 23) - x
      = ((roundHalfEven (x / (2 : ℚ) ^ (Int.log 2 x - 23)) : ℚ) - x / (2 : ℚ) ^ (Int.log 2 x - 23))
        * (2 : ℚ) ^ (Int.log 2 x - 23) := by
    field_simp
  rw [key, abs_mul, abs_of_pos he]
  calc |(roundHalfEven (x / (2 : ℚ) ^ (Int.log 2 x - 23)) : ℚ) - x / (2 : ℚ) ^ (Int.log 2 x - 23)|
        * (2 : ℚ) ^ (Int.log 2 x - 23)
      ≤ 1 / 2 * (2 : ℚ) ^ (Int.log 2 x - 23) := mul_le_mul_of_nonneg_right hr (le_of_lt he)
    _ = (2 : ℚ) ^ (Int.log 2 x - 23) * 2 ^ 23 / 2 ^ 24 := by ring
    _ ≤ x / 2 ^ 24 := by
      rw [← hsplit]
      exact div_le_div_of_nonneg_right hlow (by norm_num)

theorem f32_le (x : ℚ) (hx : 0 ≤ x) : f32 x ≤ x * (1 + 1 / 2 ^ 24) := by
  rcases eq_or_lt_of_le hx with h | h
  · rw [← h]
    simp [f32]
  · have := abs_le.1 (f32_near x h)
    linarith [this.2]

theorem f32_ge (x : ℚ) (hx : 0 ≤ x) : x * (1 - 1 / 2 ^ 24) ≤ f32 x := by
  rcases eq_or_lt_of_le hx with h | h
  · rw [← h]
    simp [f32]
  · have := abs_le.1 (f32_near x h)
    linarith [this.1]

theorem f32_eq_of (x : ℚ) (e m : ℤ) (h1 : (2 : ℚ) ^ (e + 23) ≤ x) (h2 : x < (2 : ℚ) ^ (e + 24))
    (h3 : |x / (2 : ℚ) ^ e - (m : ℚ)| < 1 / 2) : f32 x = (m : ℚ) * (2 : ℚ) ^ e := by
  have hx : 0 < x := lt_of_lt_of_le (two_zpow_pos _) h1
  have hlog : Int.log 2 x = e + 23 := by
    have ha : e + 23 ≤ Int.log 2 x := by
      rw [← Int.zpow_le_iff_le_log (by norm_num) hx]
      simpa using h1
    have hb : Int.log 2 x < e + 24 := by
      rw [← Int.lt_zpow_iff_log_lt (by norm_num) hx]
      simpa using h2
    omega
  rw [f32_of_pos x hx, hlog]
  have he : e + 23 - 23 = e := by omega
  rw [he, roundHalfEven_eq_of_near _ m h3]

theorem f32_natCast (k : ℕ) (hk : k < 2 ^ 24) : f32 (k : ℚ) = (k : ℚ) := by
  rcases Nat.eq_zero_or_pos k with h0 | hpos
  · subst h0
    simp [f32]
  · have hkq : (0 : ℚ) < (k : ℚ) := by exact_mod_cast hpos
    have hlog : Int.log 2 (k : ℚ) = (Nat.log 2 k : ℤ) := Int.log_natCast 2 k
    have hle : Nat.log 2 k < 24 := by
      by_contra hcon
      have : 2 ^ 24 ≤ k := by
        have h1 : 2 ^ 24 ≤ 2 ^ Nat.log 2 k := Nat.pow_le_pow_right (by norm_num) (by omega)
        exact le_trans h1 (Nat.pow_log_le_self 2 (by omega))
      omega
    obtain ⟨j, hj⟩ : ∃ j : ℕ, Nat.log 2 k + j = 23 := ⟨23 - Nat.log 2 k, by omega⟩
    have hexp : (Nat.log 2 k : ℤ) - 23 = -(j : ℤ) := by omega
    rw [f32_of_pos _ hkq, hlog, hexp, zpow_neg, zpow_natCast]
    have hy : (k : ℚ) / ((2 : ℚ) ^ j)⁻¹ = (((k * 2 ^ j : ℕ) : ℤ) : ℚ) := by
      push_cast
      field_simp
    rw [hy, roundHalfEven_intCast]
    push_cast
    field_simp

/-! ## The compiled loop test -/

theorem ppf_bounds (w n : ℕ) (hw : w < 2 ^ 24) (hn : n < 2 ^ 24) :
    (w : ℚ) / (n : ℚ) * (1 - 1 / 2 ^ 24) ≤ f32 (f32 (w : ℚ) / f32 (n : ℚ)) ∧
      f32 (f32 (w : ℚ) / f32 (n : ℚ)) ≤ (w : ℚ) / (n : ℚ) * (1 + 1 / 2 ^ 24) := by
  rw [f32_natCast w hw, f32_natCast n hn]
  have h0 : (0 : ℚ) ≤ (w : ℚ) / (n : ℚ) := div_nonneg (Nat.cast_nonneg _) (Nat.cast_nonneg _)
  exact ⟨f32_ge _ h0, f32_le _ h0⟩

theorem product_bounds (w n f : ℕ) (hw : w < 2 ^ 24) (hn : n < 2 ^ 24)
    (hf : f < 2 ^ 24) :
    (f : ℚ) * ((w : ℚ) / (n : ℚ)) * ((1 - 1 / 2 ^ 24) * (1 - 1 / 2 ^ 24)) ≤
        f32 (f32 (f : ℚ) * f32 (f32 (w : ℚ) / f32 (n : ℚ))) ∧
      f32 (f32 (f : ℚ) * f32 (f32 (w : ℚ) / f32 (n : ℚ))) ≤
        (f : ℚ) * ((w : ℚ) / (n : ℚ)) * ((1 + 1 / 2 ^ 24) * (1 + 1 / 2 ^ 24)) := by
  obtain ⟨h1, h2⟩ := ppf_bounds w n hw hn
  have hq : (0 : ℚ) ≤ (w : ℚ) / (n : ℚ) := div_nonneg (Nat.cast_nonneg _) (Nat.cast_nonneg _)
  have hf0 : (0 : ℚ) ≤ (f : ℚ) := Nat.cast_nonneg _
  have hp0 : (0 : ℚ) ≤ f32 (f32 (w : ℚ) / f32 (n : ℚ)) :=
    le_trans (mul_nonneg hq (by norm_num)) h1
  rw [f32_natCast f hf]
  have hx0 : (0 : ℚ) ≤ (f : ℚ) * f32 (f32 (w : ℚ) / f32 (n : ℚ)) := mul_nonneg hf0 hp0
  constructor
  · calc (f : ℚ) * ((w : ℚ) / (n : ℚ)) * ((1 - 1 / 2 ^ 24) * (1 - 1 / 2 ^ 24))
        = (f : ℚ) * ((w : ℚ) / (n : ℚ) * (1 - 1 / 2 ^ 24)) * (1 - 1 / 2 ^ 24) := by ring
      _ ≤ (f : ℚ) * f32 (f32 (w : ℚ) / f32 (n : ℚ)) * (1 - 1 / 2 ^ 24) :=
        mul_le_mul_of_nonneg_right (mul_le_mul_of_nonneg_left h1 hf0) (by norm_num)
      _ ≤ _ := f32_ge _ hx0
  · calc f32 ((f : ℚ) * f32 (f32 (w : ℚ) / f32 (n : ℚ)))
        ≤ (f : ℚ) * f32 (f32 (w : ℚ) / f32 (n : ℚ)) * (1 + 1 / 2 ^ 24) := f32_le _ hx0
      _ ≤ (f : ℚ) * ((w : ℚ) / (n : ℚ) * (1 + 1 / 2 ^ 24)) * (1 + 1 / 2 ^ 24) :=
        mul_le_mul_of_nonneg_right (mul_le_mul_of_nonneg_left h2 hf0) (by norm_num)
      _ = _ := by ring

theorem lessBinary32_of_lt (w n f p : ℕ) (hw : w < 2 ^ 24) (hn : n < 2 ^ 24) (hn1 : 1 ≤ n)
    (hf : f < 2 ^ 24) (hp : p < 2 ^ 24) (hsmall : p * n ≤ 2 ^ 22) (hlt : f * w < p * n) :
    lessBinary32 (f32 (f32 (w : ℚ) / f32 (n : ℚ))) f p = true := by
  unfold lessBinary32
  rw [decide_eq_true_iff, f32_natCast p hp]
  obtain ⟨_, hub⟩ := product_bounds w n f hw hn hf
  refine lt_of_le_of_lt hub ?_
  have hn0 : (0 : ℚ) < (n : ℚ) := by exact_mod_cast hn1
  have h1 : (f : ℚ) * (w : ℚ) + 1 ≤ (p : ℚ) * (n : ℚ) := by exact_mod_cast hlt
  have h2 : (p : ℚ) * (n : ℚ) ≤ 2 ^ 22 := by exact_mod_cast hsmall
  have h3 : (0 : ℚ) ≤ (f : ℚ) * (w : ℚ) := mul_nonneg (Nat.cast_nonneg _) (Nat.cast_nonneg _)
  have key : (f : ℚ) * (w : ℚ) * ((1 + 1 / 2 ^ 24) * (1 + 1 / 2 ^ 24)) < (p : ℚ) * (n : ℚ) := by
    norm_num at h2 ⊢
    nlinarith
  calc (f : ℚ) * ((w : ℚ) / (n : ℚ)) * ((1 + 1 / 2 ^ 24) * (1 + 1 / 2 ^ 24))
      = (f : ℚ) * (w : ℚ) * ((1 + 1 / 2 ^ 24) * (1 + 1 / 2 ^ 24)) / (n : ℚ) := by ring
    _ < (p : ℚ) * (n : ℚ) / (n : ℚ) := div_lt_div_of_pos_right key hn0
    _ = (p : ℚ) := by field_simp

theorem lessBinary32_of_gt (w n f p : ℕ) (hw : w < 2 ^ 24) (hn : n < 2 ^ 24) (hn1 : 1 ≤ n)
    (hf : f < 2 ^ 24) (hp : p < 2 ^ 24) (hsmall : p * n ≤ 2 ^ 22) (hgt : p * n < f * w) :
    lessBinary32 (f32 (f32 (w : ℚ) / f32 (n : ℚ))) f p = false := by
  unfold lessBinary32
  rw [decide_eq_false_iff_not, not_lt, f32_natCast p hp]
  obtain ⟨hlb, _⟩ := product_bounds w n f hw hn hf
  refine le_trans ?_ hlb
  have hn0 : (0 : ℚ) < (n : ℚ) := by exact_mod_cast hn1
  have h1 : (p : ℚ) * (n : ℚ) + 1 ≤ (f : ℚ) * (w : ℚ) := by exact_mod_cast hgt
  have h2 : (p : ℚ) * (n : ℚ) ≤ 2 ^ 22 := by exact_mod_cast hsmall
  have h3 : (0 : ℚ) ≤ (p : ℚ) * (n : ℚ) := mul_nonneg (Nat.cast_nonneg _) (Nat.cast_nonneg _)
  have key : (p : ℚ) * (n : ℚ) ≤ (f : ℚ) * (w : ℚ) * ((1 - 1 / 2 ^ 24) * (1 - 1 / 2 ^ 24)) := by
    norm_num at h2 ⊢
    nlinarith
  calc (p : ℚ) = (p : ℚ) * (n : ℚ) / (n : ℚ) := by field_simp
    _ ≤ (f : ℚ) * (w : ℚ) * ((1 - 1 / 2 ^ 24) * (1 - 1 / 2 ^ 24)) / (n : ℚ) :=
      div_le_div_of_nonneg_right key (le_of_lt hn0)
    _ = (f : ℚ) * ((w : ℚ) / (n : ℚ)) * ((1 - 1 / 2 ^ 24) * (1 - 1 / 2 ^ 24)) := by ring

/-- Past the last valid frame by one the test fails for every pixel. -/
theorem lessBinary32_stop (w n p : ℕ) (hn1 : 1 ≤ n) (hwn : w ≤ n) (hn : n ≤ 2 ^ 22)
    (hp : p ≤ w) :
    lessBinary32 (f32 (f32 (w : ℚ) / f32 (n : ℚ))) (n + 1) p = false := by
  have hn24 : n < 2 ^ 24 := lt_of_le_of_lt hn (by norm_num)
  unfold lessBinary32
  rw [decide_eq_false_iff_not, not_lt, f32_natCast p (by omega)]
  obtain ⟨hlb, _⟩ := product_bounds w n (n + 1) (by omega) hn24 (by omega)
  refine le_trans ?_ hlb
  have hn0 : (0 : ℚ) < (n : ℚ) := by exact_mod_cast hn1
  have hpw : (p : ℚ) ≤ (w : ℚ) := by exact_mod_cast hp
  have hnq : (n : ℚ) ≤ 4194304 := by
    have h : n ≤ 4194304 := by
      have := hn
      norm_num at this
      exact this
    exact_mod_cast h
  have hw0 : (0 : ℚ) ≤ (w : ℚ) := Nat.cast_nonneg _
  have key : (n : ℚ) ≤ ((n : ℚ) + 1) * ((1 - 1 / 2 ^ 24) * (1 - 1 / 2 ^ 24)) := by
    norm_num
    linarith
  have hfac : (1 : ℚ) ≤ ((n : ℚ) + 1) * ((1 - 1 / 2 ^ 24) * (1 - 1 / 2 ^ 24)) / (n : ℚ) := by
    rw [le_div_iff₀ hn0]
    linarith
  calc (p : ℚ) ≤ (w : ℚ) * 1 := by linarith
    _ ≤ (w : ℚ) * (((n : ℚ) + 1) * ((1 - 1 / 2 ^ 24) * (1 - 1 / 2 ^ 24)) / (n : ℚ)) :=
      mul_le_mul_of_nonneg_left hfac hw0
    _ = ((n + 1 : ℕ) : ℚ) * ((w : ℚ) / (n : ℚ)) * ((1 - 1 / 2 ^ 24) * (1 - 1 / 2 ^ 24)) := by
      push_cast
      ring

/-- Below the last valid frame the test for the last pixels holds. -/
theorem lessBinary32_cover (w n f : ℕ) (hw1 : 1 ≤ w) (hwn : w ≤ n) (hn : n ≤ 2 ^ 22)
    (hf : f < n) :
    lessBinary32 (f32 (f32 (w : ℚ) / f32 (n : ℚ))) f w = true := by
  have hn24 : n < 2 ^ 24 := lt_of_le_of_lt hn (by norm_num)
  unfold lessBinary32
  rw [decide_eq_true_iff]
  obtain ⟨_, hub⟩ := product_bounds w n f (by omega) hn24 (by omega)
  refine lt_of_lt_of_eq (lt_of_le_of_lt hub ?_) (f32_natCast w (by omega)).symm
  have hn0 : (0 : ℚ) < (n : ℚ) := by
    have : 0 < n := by omega
    exact_mod_cast this
  have hfq : (f : ℚ) + 1 ≤ (n : ℚ) := by exact_mod_cast hf
  have hnq : (n : ℚ) ≤ 4194304 := by
    have h : n ≤ 4194304 := by
      have := hn
      norm_num at this
      exact this
    exact_mod_cast h
  have hw0 : (0 : ℚ) < (w : ℚ) := by exact_mod_cast hw1
  have hf0 : (0 : ℚ) ≤ (f : ℚ) := Nat.cast_nonneg _
  have key : (f : ℚ) * ((1 + 1 / 2 ^ 24) * (1 + 1 / 2 ^ 24)) < (n : ℚ) := by
    norm_num
    linarith
  have hfac : (f : ℚ) * ((1 + 1 / 2 ^ 24) * (1 + 1 / 2 ^ 24)) / (n : ℚ) < 1 := by
    rw [div_lt_iff₀ hn0]
    linarith
  calc (f : ℚ) * ((w : ℚ) / (n : ℚ)) * ((1 + 1 / 2 ^ 24) * (1 + 1 / 2 ^ 24))
      = (w : ℚ) * ((f : ℚ) * ((1 + 1 / 2 ^ 24) * (1 + 1 / 2 ^ 24)) / (n : ℚ)) := by ring
    _ < (w : ℚ) * 1 := mul_lt_mul_of_pos_left hfac hw0
    _ = (w : ℚ) := by ring


theorem f32_one_over_41 : f32 ((1 : ℚ) / 41) = 3273603 / 134217728 := by
  have h := f32_eq_of ((1 : ℚ) / 41) (-29) 13094412 (by norm_num) (by norm_num)
    (by rw [abs_lt]; constructor <;> norm_num)
  rw [h]
  norm_num

theorem f32_edge_product : f32 (41 * ((3273603 : ℚ) / 134217728)) = 16777215 / 16777216 := by
  have h := f32_eq_of (41 * ((3273603 : ℚ) / 134217728)) (-24) 16777215 (by norm_num)
    (by norm_num) (by rw [abs_lt]; constructor <;> norm_num)
  rw [h]
  norm_num

theorem ppf_1_41 : f32 (f32 ((1 : ℕ) : ℚ) / f32 ((41 : ℕ) : ℚ)) = 3273603 / 134217728 := by
  rw [f32_natCast 1 (by norm_num), f32_natCast 41 (by norm_num)]
  exact_mod_cast f32_one_over_41

theorem lessBinary32_edge : lessBinary32 (3273603 / 134217728) 41 1 = true := by
  unfold lessBinary32
  rw [decide_eq_true_iff, f32_natCast 41 (by norm_num), f32_natCast 1 (by norm_num)]
  have h : (((41 : ℕ) : ℚ)) * (3273603 / 134217728) = 41 * ((3273603 : ℚ) / 134217728) := by
    norm_num
  rw [h, f32_edge_product]
  norm_num

/-! ## The compiled bucket loop -/

theorem bucketScanBinary32_spec (row : Nat → ℚ) (ppf : ℚ) (p : Nat) :
    ∀ (fuel k f : Nat) (mn mx : ℚ), k ≤ fuel →
      (∀ g, f ≤ g → g < f + k → lessBinary32 ppf g p = true) →
      lessBinary32 ppf (f + k) p = false → mn ≤ mx →
      ∃ mn1 mx1,
        bucketScanBinary32 row ppf p fuel f mn mx = some (f + k, mn1, mx1, List.range' f k) ∧
        mn1 ≤ mn ∧ mx ≤ mx1 ∧ mn1 ≤ mx1 ∧
        (∀ g, f ≤ g → g < f + k → mn1 ≤ row g ∧ row g ≤ mx1) ∧
        (mn1 = mn ∨ ∃ g, f ≤ g ∧ g < f + k ∧ mn1 = row g) ∧
        (mx1 = mx ∨ ∃ g, f ≤ g ∧ g < f + k ∧ mx1 = row g) := by
  intro fuel
  induction fuel with
  | zero =>
    intro k f mn mx hk _ hstop hle
    have hk0 : k = 0 := by omega
    subst hk0
    refine ⟨mn, mx, ?_, le_refl _, le_refl _, hle, ?_, Or.inl rfl, Or.inl rfl⟩
    · simp only [Nat.add_zero] at hstop
      simp [bucketScanBinary32, hstop]
    · intro g h1 h2
      omega
  | succ fuel ih =>
    intro k f mn mx hk hin hstop hle
    cases k with
    | zero =>
      refine ⟨mn, mx, ?_, le_refl _, le_refl _, hle, ?_, Or.inl rfl, Or.inl rfl⟩
      · simp only [Nat.add_zero] at hstop
        simp [bucketScanBinary32, hstop]
      · intro g h1 h2
        omega
    | succ k =>
      have hcond : lessBinary32 ppf f p = true := hin f (le_refl _) (by omega)
      have hin1 : ∀ g, f + 1 ≤ g → g < f + 1 + k → lessBinary32 ppf g p = true :=
        fun g h1 h2 => hin g (by omega) (by omega)
      have hstop1 : lessBinary32 ppf (f + 1 + k) p = false := by
        have : f + 1 + k = f + (k + 1) := by omega
        rw [this]
        exact hstop
      have hidx : f + (k + 1) = f + 1 + k := by omega
      rw [hidx, List.range'_succ]
      simp only [bucketScanBinary32, hcond, if_true]
      by_cases h1 : row f < mn
      · rw [if_pos h1]
        obtain ⟨a, b, he, ha, hb, hab, hall, hmn, hmx⟩ :=
          ih k (f + 1) (row f) mx (by omega) hin1 hstop1 (le_trans (le_of_lt h1) hle)
        refine ⟨a, b, by rw [he], le_trans ha (le_of_lt h1), hb, hab, ?_, ?_, ?_⟩
        · intro g hg1 hg2
          rcases Nat.eq_or_lt_of_le hg1 with hfg | hfg
          · subst hfg
            exact ⟨ha, le_trans (le_trans (le_of_lt h1) hle) hb⟩
          · exact hall g hfg hg2
        · rcases hmn with h | ⟨g, hg1, hg2, hg3⟩
          · exact Or.inr ⟨f, le_refl _, by omega, h⟩
          · exact Or.inr ⟨g, by omega, hg2, hg3⟩
        · rcases hmx with h | ⟨g, hg1, hg2, hg3⟩
          · exact Or.inl h
          · exact Or.inr ⟨g, by omega, hg2, hg3⟩
      · rw [if_neg h1]
        by_cases h2 : row f > mx
        · rw [if_pos h2]
          obtain ⟨a, b, he, ha, hb, hab, hall, hmn, hmx⟩ :=
            ih k (f + 1) mn (row f) (by omega) hin1 hstop1 (le_trans hle (le_of_lt h2))
          refine ⟨a, b, by rw [he], ha, le_trans (le_of_lt h2) hb, hab, ?_, ?_, ?_⟩
          · intro g hg1 hg2
            rcases Nat.eq_or_lt_of_le hg1 with hfg | hfg
            · subst hfg
              exact ⟨le_trans ha (not_lt.mp h1), hb⟩
            · exact hall g hfg hg2
          · rcases hmn with h | ⟨g, hg1, hg2, hg3⟩
            · exact Or.inl h
            · exact Or.inr ⟨g, by omega, hg2, hg3⟩
          · rcases hmx with h | ⟨g, hg1, hg2, hg3⟩
            · exact Or.inr ⟨f, le_refl _, by omega, h⟩
            · exact Or.inr ⟨g, by omega, hg2, hg3⟩
        · rw [if_neg h2]
          obtain ⟨a, b, he, ha, hb, hab, hall, hmn, hmx⟩ :=
            ih k (f + 1) mn mx (by omega) hin1 hstop1 hle
          refine ⟨a, b, by rw [he], ha, hb, hab, ?_, ?_, ?_⟩
          · intro g hg1 hg2
            rcases Nat.eq_or_lt_of_le hg1 with hfg | hfg
            · subst hfg
              exact ⟨le_trans ha (not_lt.mp h1), le_trans (not_lt.mp h2) hb⟩
            · exact hall g hfg hg2
          · rcases hmn with h | ⟨g, hg1, hg2, hg3⟩
            · exact Or.inl h
            · exact Or.inr ⟨g, by omega, hg2, hg3⟩
          · rcases hmx with h | ⟨g, hg1, hg2, hg3⟩
            · exact Or.inl h
            · exact Or.inr ⟨g, by omega, hg2, hg3⟩

/-- One iteration of the compiled pixel loop, given where its inner loop
stops. -/
theorem pixelLoopBinary32_step (row : Nat → ℚ) (ppf : ℚ) (fuel stop n p f e : Nat)
    (rest : List Pass) (hf : 1 ≤ f) (hfe : f ≤ e) (he : e ≤ stop) (hfuel : e - f ≤ fuel)
    (htrue : ∀ g, f ≤ g → g < e → lessBinary32 ppf g (p + 1) = true)
    (hfalse : lessBinary32 ppf e (p + 1) = false)
    (hrest : pixelLoopBinary32 fuel row ppf n (p + 1) e = some rest) :
    ∃ ps, pixelLoopBinary32 fuel row ppf (n + 1) p f = some (ps :: rest) ∧
      PassOK row ppf stop (p + 1) ps ∧ ps.bucket.first = f ∧ ps.bucket.next = e := by
  have hfe' : f + (e - f) = e := by omega
  obtain ⟨mn1, mx1, hscan, h1, h2, _, hall, hmn, hmx⟩ :=
    bucketScanBinary32_spec row ppf (p + 1) fuel (e - f) f (row (f - 1)) (row (f - 1)) hfuel
      (fun g hg1 hg2 => htrue g hg1 (by omega)) (by rw [hfe']; exact hfalse) (le_refl _)
  rw [hfe'] at hscan hall hmn hmx
  refine ⟨⟨⟨p + 1, f, e, mn1, mx1⟩, (f - 1) :: List.range' f (e - f)⟩, ?_, ?_, rfl, rfl⟩
  · simp only [pixelLoopBinary32, hscan, hrest]
  · refine ⟨rfl, hf, hfe, he, htrue, hfalse, ?_, ?_, ?_, rfl⟩
    · rintro g (hg | ⟨hg1, hg2⟩)
      · simp only at hg
        subst hg
        exact ⟨h1, h2⟩
      · exact hall g hg1 hg2
    · rcases hmn with h | ⟨g, hg1, hg2, hg3⟩
      · exact ⟨f - 1, Or.inl rfl, h⟩
      · exact ⟨g, Or.inr ⟨hg1, hg2⟩, hg3⟩
    · rcases hmx with h | ⟨g, hg1, hg2, hg3⟩
      · exact ⟨f - 1, Or.inl rfl, h⟩
      · exact ⟨g, Or.inr ⟨hg1, hg2⟩, hg3⟩

theorem exit_exists (ppf : ℚ) (stop q f : Nat) (hf : f ≤ stop)
    (hstop : lessBinary32 ppf stop q = false) :
    ∃ e, f ≤ e ∧ e ≤ stop ∧ (∀ g, f ≤ g → g < e → lessBinary32 ppf g q = true) ∧
      lessBinary32 ppf e q = false := by
  have hex : ∃ d, lessBinary32 ppf (f + d) q = false :=
    ⟨stop - f, by rw [Nat.add_sub_cancel' hf]; exact hstop⟩
  refine ⟨f + Nat.find hex, Nat.le_add_right _ _, ?_, ?_, Nat.find_spec hex⟩
  · have : Nat.find hex ≤ stop - f :=
      Nat.find_min' hex (by rw [Nat.add_sub_cancel' hf]; exact hstop)
    omega
  · intro g hg1 hg2
    have hlt : g - f < Nat.find hex := by omega
    have := Nat.find_min hex hlt
    rw [Nat.add_sub_cancel' hg1] at this
    simpa using this

theorem pixelLoopBinary32_spec (row : Nat → ℚ) (ppf : ℚ) (w stop fuel : Nat)
    (hstop : ∀ q, 1 ≤ q → q ≤ w → lessBinary32 ppf stop q = false)
    (hfuel : stop ≤ fuel + 1) :
    ∀ (k p f : Nat), p + k ≤ w → 1 ≤ f → f ≤ stop →
      ∃ passes, pixelLoopBinary32 fuel row ppf k p f = some passes ∧ passes.length = k ∧
        PassesOK row ppf stop p f passes := by
  intro k
  induction k with
  | zero =>
    intro p f _ _ _
    exact ⟨[], rfl, rfl, trivial⟩
  | succ k ih =>
    intro p f hpk hf1 hfs
    obtain ⟨e, hfe, hes, htrue, hfalse⟩ :=
      exit_exists ppf stop (p + 1) f hfs (hstop (p + 1) (by omega) (by omega))
    obtain ⟨rest, hrest, hlen, hok⟩ := ih (p + 1) e (by omega) (by omega) hes
    obtain ⟨ps, hps, hpass, hfirst, hnext⟩ :=
      pixelLoopBinary32_step row ppf fuel stop k p f e rest hf1 hfe hes (by omega) htrue hfalse
        hrest
    refine ⟨ps :: rest, hps, by simp [hlen], hpass, hfirst, ?_⟩
    rw [hnext]
    exact hok

theorem PassesOK_get (row : Nat → ℚ) (ppf : ℚ) (stop : Nat) :
    ∀ (passes : List Pass) (p f : Nat), PassesOK row ppf stop p f passes →
      ∀ (j : Nat) (ps : Pass), passes[j]? = some ps →
        PassOK row ppf stop (p + j + 1) ps ∧ (j = 0 → ps.bucket.first = f) ∧
          ∀ pt : Pass, passes[j + 1]? = some pt → pt.bucket.first = ps.bucket.next := by
  intro passes
  induction passes with
  | nil =>
    intro p f _ j ps h
    simp at h
  | cons hd tl ih =>
    intro p f hok j ps h
    obtain ⟨h1, h2, h3⟩ := hok
    cases j with
    | zero =>
      simp only [List.getElem?_cons_zero, Option.some.injEq] at h
      subst h
      refine ⟨h1, fun _ => h2, fun pt hpt => ?_⟩
      simp only [Nat.zero_add, List.getElem?_cons_succ] at hpt
      cases tl with
      | nil => simp at hpt
      | cons t ts =>
        simp only [List.getElem?_cons_zero, Option.some.injEq] at hpt
        subst hpt
        exact h3.2.1
    | succ j =>
      simp only [List.getElem?_cons_succ] at h
      obtain ⟨r1, _, r3⟩ := ih (p + 1) hd.bucket.next h3 j ps h
      refine ⟨?_, fun h0 => absurd h0 (Nat.succ_ne_zero j), fun pt hpt => ?_⟩
      · have : p + (j + 1) + 1 = p + 1 + j + 1 := by omega
        rw [this]
        exact r1
      · simp only [List.getElem?_cons_succ] at hpt
        exact r3 pt hpt

theorem runLoop_some (body : Nat → Option (List PaintCmd × List Nat))
    (blk : Nat → List PaintCmd) (rd : Nat → List Nat)
    (h : ∀ ch, body ch = some (blk ch, rd ch)) :
    ∀ n c, runLoop body n c =
      some ((List.range' c n).flatMap blk, (List.range' c n).flatMap rd) := by
  intro n
  induction n with
  | zero => intro c; rfl
  | succ n ih =>
    intro c
    simp only [runLoop, h c, ih (c + 1), List.range'_succ, List.flatMap_cons]

theorem paint1DBinary32_bucket_eq (fuel : Nat) (s : Widget) (overlapped : Bool)
    (chanCount maxFrames frameCount : Nat) (hav : 2 ≤ s._availableFrames)
    (hw : 1 ≤ s.width) (hfw : s.width ≤ frameCount) (hsize : frameCount ≤ 2 ^ 22)
    (hfuel : frameCount ≤ fuel) :
    ∃ tr : Nat → List Pass,
      paint1DBinary32 fuel s overlapped chanCount maxFrames frameCount =
        some ((List.range chanCount).flatMap (fun ch =>
            bucketBlock s overlapped (yRatio1D s overlapped chanCount)
              (yHeight1D s overlapped chanCount) ch ((tr ch).map Pass.bucket)),
          (List.range chanCount).flatMap (fun ch =>
            (tr ch).flatMap (fun ps => ps.reads.map (fun f => ch * maxFrames + f)))) ∧
      ∀ ch,
        pixelLoopBinary32 fuel (channelRow s maxFrames ch)
            (f32 (f32 (s.width : ℚ) / f32 (frameCount : ℚ))) s.width 0 1 = some (tr ch) ∧
          (tr ch).length = s.width ∧
          PassesOK (channelRow s maxFrames ch)
            (f32 (f32 (s.width : ℚ) / f32 (frameCount : ℚ))) (frameCount + 1) 0 1 (tr ch) := by
  have hstop : ∀ q, 1 ≤ q → q ≤ s.width →
      lessBinary32 (f32 (f32 (s.width : ℚ) / f32 (frameCount : ℚ))) (frameCount + 1) q = false :=
    fun q _ hq => lessBinary32_stop s.width frameCount q (by omega) hfw hsize hq
  have hspec := fun ch =>
    pixelLoopBinary32_spec (channelRow s maxFrames ch)
      (f32 (f32 (s.width : ℚ) / f32 (frameCount : ℚ))) s.width (frameCount + 1) fuel hstop
      (by omega) s.width 0 1 (by omega) (le_refl _) (by omega)
  refine ⟨fun ch => (pixelLoopBinary32 fuel (channelRow s maxFrames ch)
    (f32 (f32 (s.width : ℚ) / f32 (frameCount : ℚ))) s.width 0 1).getD [], ?_, ?_⟩
  · unfold paint1DBinary32
    rw [if_neg (by omega)]
    simp only [Widget.rect]
    rw [if_neg (by omega), List.range_eq_range']
    refine runLoop_some _ _ _ (fun ch => ?_) chanCount 0
    obtain ⟨passes, hpasses, _, _⟩ := hspec ch
    simp only [bucketChannelBinary32, hpasses, Option.getD_some, Widget.rect]
  · intro ch
    obtain ⟨passes, hpasses, hlen, hok⟩ := hspec ch
    simp only [hpasses, Option.getD_some]
    exact ⟨trivial, hlen, hok⟩

/-- At the last valid frame the test fails for every pixel but the last. -/
theorem lessBinary32_last (w n p : ℕ) (hn1 : 1 ≤ n) (hwn : w ≤ n) (hn : n ≤ 2 ^ 22)
    (hp : p < w) :
    lessBinary32 (f32 (f32 (w : ℚ) / f32 (n : ℚ))) n p = false := by
  have hn24 : n < 2 ^ 24 := lt_of_le_of_lt hn (by norm_num)
  unfold lessBinary32
  rw [decide_eq_false_iff_not, not_lt, f32_natCast p (by omega)]
  obtain ⟨hlb, _⟩ := product_bounds w n n (by omega) hn24 hn24
  refine le_trans ?_ hlb
  have hn0 : (0 : ℚ) < (n : ℚ) := by exact_mod_cast hn1
  have hpw : (p : ℚ) + 1 ≤ (w : ℚ) := by exact_mod_cast hp
  have hwq : (w : ℚ) ≤ 4194304 := by
    have h : w ≤ 4194304 := by
      have := hn
      norm_num at this
      omega
    exact_mod_cast h
  have hw0 : (0 : ℚ) ≤ (w : ℚ) := Nat.cast_nonneg _
  have key : (w : ℚ) - 1 ≤ (w : ℚ) * ((1 - 1 / 2 ^ 24) * (1 - 1 / 2 ^ 24)) := by
    norm_num
    linarith
  calc (p : ℚ) ≤ (w : ℚ) - 1 := by linarith
    _ ≤ (w : ℚ) * ((1 - 1 / 2 ^ 24) * (1 - 1 / 2 ^ 24)) := key
    _ = (n : ℚ) * ((w : ℚ) / (n : ℚ)) * ((1 - 1 / 2 ^ 24) * (1 - 1 / 2 ^ 24)) := by
      field_simp

/-- Away from exact ties the compiled test agrees with the test in exact
arithmetic. -/
theorem lessBinary32_exact (w n f p : ℕ) (hw : w < 2 ^ 24) (hn : n < 2 ^ 24) (hn1 : 1 ≤ n)
    (hf : f < 2 ^ 24) (hsmall : p * n ≤ 2 ^ 22) (hne : f * w ≠ p * n) :
    lessBinary32 (f32 (f32 (w : ℚ) / f32 (n : ℚ))) f p = true ↔
      (f : ℚ) * ((w : ℚ) / (n : ℚ)) < (p : ℚ) := by
  have hpn : p ≤ p * n := Nat.le_mul_of_pos_right p (by omega)
  have hp : p < 2 ^ 24 := lt_of_le_of_lt (le_trans hpn hsmall) (by norm_num)
  rw [ppf_lt_iff w n f p (by omega)]
  rcases Nat.lt_or_gt_of_ne hne with h | h
  · simp [lessBinary32_of_lt w n f p hw hn hn1 hf hp hsmall h, h]
  · simp [lessBinary32_of_gt w n f p hw hn hn1 hf hp hsmall h, Nat.lt_asymm h]

/-! ## Concrete runs of the compiled loop -/


/-- One iteration of the compiled pixel loop with known exit cursor and known
extremes of the frames it reads. -/
theorem pixelLoopBinary32_cons (row : Nat → ℚ) (ppf : ℚ) (fuel n p f e : Nat)
    (rest : List Pass) (lo hi : ℚ) (hf : 1 ≤ f) (hfe : f ≤ e) (hfuel : e - f ≤ fuel)
    (htrue : ∀ g, f ≤ g → g < e → lessBinary32 ppf g (p + 1) = true)
    (hfalse : lessBinary32 ppf e (p + 1) = false)
    (hrest : pixelLoopBinary32 fuel row ppf n (p + 1) e = some rest)
    (hlo : ∀ g, f - 1 ≤ g → g < e → lo ≤ row g) (hlo1 : ∃ g, f - 1 ≤ g ∧ g < e ∧ row g = lo)
    (hhi : ∀ g, f - 1 ≤ g → g < e → row g ≤ hi) (hhi1 : ∃ g, f - 1 ≤ g ∧ g < e ∧ row g = hi) :
    pixelLoopBinary32 fuel row ppf (n + 1) p f =
      some (⟨⟨p + 1, f, e, lo, hi⟩, (f - 1) :: List.range' f (e - f)⟩ :: rest) := by
  obtain ⟨ps, hps, hok, hfirst, hnext⟩ :=
    pixelLoopBinary32_step row ppf fuel e n p f e rest hf hfe (le_refl _) hfuel htrue hfalse hrest
  obtain ⟨hpix, _, _, _, _, _, hall, ⟨g1, hg1, hmin⟩, ⟨g2, hg2, hmax⟩, hreads⟩ := hok
  have hcov : ∀ g, ps.bucket.covers g ↔ f - 1 ≤ g ∧ g < e := by
    intro g
    unfold Bucket.covers
    rw [hfirst, hnext]
    omega
  obtain ⟨a, ha1, ha2, ha3⟩ := hlo1
  obtain ⟨b, hb1, hb2, hb3⟩ := hhi1
  have hmn : ps.bucket.min = lo := by
    apply le_antisymm
    · rw [← ha3]
      exact (hall a ((hcov a).2 ⟨ha1, ha2⟩)).1
    · rw [hmin]
      exact hlo g1 ((hcov g1).1 hg1).1 ((hcov g1).1 hg1).2
  have hmx : ps.bucket.max = hi := by
    apply le_antisymm
    · rw [hmax]
      exact hhi g2 ((hcov g2).1 hg2).1 ((hcov g2).1 hg2).2
    · rw [← hb3]
      exact (hall b ((hcov b).2 ⟨hb1, hb2⟩)).2
  rw [hps]
  obtain ⟨⟨px, fi, ne, mn, mx⟩, rd⟩ := ps
  simp only at hpix hfirst hnext hmn hmx hreads
  subst hpix hfirst hnext hmn hmx hreads
  rfl

theorem f32_edge_product_82 :
    f32 (82 * ((3273603 : ℚ) / 134217728)) = 16777215 / 8388608 := by
  have h := f32_eq_of (82 * ((3273603 : ℚ) / 134217728)) (-23) 16777215 (by norm_num)
    (by norm_num) (by rw [abs_lt]; constructor <;> norm_num)
  rw [h]
  norm_num

theorem f32_edge_product_123 : f32 (123 * ((3273603 : ℚ) / 134217728)) = 3 := by
  have h := f32_eq_of (123 * ((3273603 : ℚ) / 134217728)) (-22) 12582912 (by norm_num)
    (by norm_num) (by rw [abs_lt]; constructor <;> norm_num)
  rw [h]
  norm_num

theorem ppf_3_123 : f32 (f32 ((3 : ℕ) : ℚ) / f32 ((123 : ℕ) : ℚ)) = 3273603 / 134217728 := by
  rw [f32_natCast 3 (by norm_num), f32_natCast 123 (by norm_num)]
  have h : (((3 : ℕ) : ℚ)) / ((123 : ℕ) : ℚ) = (1 : ℚ) / 41 := by norm_num
  rw [h]
  exact f32_one_over_41

theorem lessBinary32_edge_82 : lessBinary32 (3273603 / 134217728) 82 2 = true := by
  unfold lessBinary32
  rw [decide_eq_true_iff, f32_natCast 82 (by norm_num), f32_natCast 2 (by norm_num)]
  have h : (((82 : ℕ) : ℚ)) * (3273603 / 134217728) = 82 * ((3273603 : ℚ) / 134217728) := by
    norm_num
  rw [h, f32_edge_product_82]
  norm_num

theorem lessBinary32_edge_123 : lessBinary32 (3273603 / 134217728) 123 3 = false := by
  unfold lessBinary32
  rw [decide_eq_false_iff_not, f32_natCast 123 (by norm_num), f32_natCast 3 (by norm_num)]
  have h : (((123 : ℕ) : ℚ)) * (3273603 / 134217728) = 123 * ((3273603 : ℚ) / 134217728) := by
    norm_num
  rw [h, f32_edge_product_123]
  norm_num

theorem lessBinary32_lit_lt (g p : ℕ) (hp : p ≤ 3) (h : g * 3 < p * 123) :
    lessBinary32 (3273603 / 134217728) g p = true := by
  have := lessBinary32_of_lt 3 123 g p (by norm_num) (by norm_num) (by norm_num)
    (by norm_num; omega) (by norm_num; omega) (by norm_num; omega) h
  rwa [ppf_3_123] at this

theorem lessBinary32_lit_gt (g p : ℕ) (hp : p ≤ 3) (hg : g ≤ 1000) (h : p * 123 < g * 3) :
    lessBinary32 (3273603 / 134217728) g p = false := by
  have := lessBinary32_of_gt 3 123 g p (by norm_num) (by norm_num) (by norm_num)
    (by norm_num; omega) (by norm_num; omega) (by norm_num; omega) h
  rwa [ppf_3_123] at this

/-- The compiled pixel loop on one pixel and 41 frames: a single iteration that
moves the cursor from 1 to 42, so that it reads the frames 0 to 41. -/
theorem trace_1_41 (row : Nat → ℚ) (lo hi : ℚ)
    (hlo : ∀ g, g < 42 → lo ≤ row g) (hlo1 : ∃ g, g < 42 ∧ row g = lo)
    (hhi : ∀ g, g < 42 → row g ≤ hi) (hhi1 : ∃ g, g < 42 ∧ row g = hi) :
    pixelLoopBinary32 41 row (3273603 / 134217728) 1 0 1 =
      some [⟨⟨1, 1, 42, lo, hi⟩, 0 :: List.range' 1 41⟩] := by
  obtain ⟨a, ha1, ha2⟩ := hlo1
  obtain ⟨b, hb1, hb2⟩ := hhi1
  refine pixelLoopBinary32_cons row _ 41 0 0 1 42 [] lo hi (le_refl _) (by norm_num)
    (by norm_num) ?_ ?_ rfl (fun g _ h => hlo g h) ⟨a, by omega, ha1, ha2⟩
    (fun g _ h => hhi g h) ⟨b, by omega, hb1, hb2⟩
  · intro g _ hg
    rcases Nat.lt_or_ge g 41 with h | h
    · exact lessBinary32_lit_lt g 1 (by norm_num) (by omega)
    · have : g = 41 := by omega
      subst this
      exact lessBinary32_edge
  · exact lessBinary32_lit_gt 42 1 (by norm_num) (by norm_num) (by norm_num)

/-- The compiled pixel loop on 3 pixels and 123 frames of the ramp: the
cursor stops at 42, 83 and 123. -/
theorem trace_3_123 :
    pixelLoopBinary32 123 ramp (3273603 / 134217728) 3 0 1 =
      some [⟨⟨1, 1, 42, 0, 41⟩, 0 :: List.range' 1 41⟩,
        ⟨⟨2, 42, 83, 41, 82⟩, 41 :: List.range' 42 41⟩,
        ⟨⟨3, 83, 123, 82, 122⟩, 82 :: List.range' 83 40⟩] := by
  have hmono : ∀ a b : ℕ, a ≤ b → ramp a ≤ ramp b := fun a b h => by
    unfold ramp
    exact_mod_cast h
  have h3 : pixelLoopBinary32 123 ramp (3273603 / 134217728) 1 2 83 =
      some [⟨⟨3, 83, 123, 82, 122⟩, 82 :: List.range' 83 40⟩] := by
    refine pixelLoopBinary32_cons ramp _ 123 0 2 83 123 [] 82 122 (by norm_num) (by norm_num)
      (by norm_num) ?_ lessBinary32_edge_123 rfl ?_ ⟨82, by norm_num, by norm_num, ?_⟩ ?_
      ⟨122, by norm_num, by norm_num, ?_⟩
    · intro g _ hg
      exact lessBinary32_lit_lt g 3 (by norm_num) (by omega)
    · intro g hg _
      have := hmono 82 g (by omega)
      simpa [ramp] using this
    · simp [ramp]
    · intro g _ hg
      have := hmono g 122 (by omega)
      simpa [ramp] using this
    · simp [ramp]
  have h2 : pixelLoopBinary32 123 ramp (3273603 / 134217728) 2 1 42 =
      some [⟨⟨2, 42, 83, 41, 82⟩, 41 :: List.range' 42 41⟩,
        ⟨⟨3, 83, 123, 82, 122⟩, 82 :: List.range' 83 40⟩] := by
    refine pixelLoopBinary32_cons ramp _ 123 1 1 42 83 _ 41 82 (by norm_num) (by norm_num)
      (by norm_num) ?_ ?_ h3 ?_ ⟨41, by norm_num, by norm_num, ?_⟩ ?_
      ⟨82, by norm_num, by norm_num, ?_⟩
    · intro g _ hg
      rcases Nat.lt_or_ge g 82 with h | h
      · exact lessBinary32_lit_lt g 2 (by norm_num) (by omega)
      · have : g = 82 := by omega
        subst this
        exact lessBinary32_edge_82
    · exact lessBinary32_lit_gt 83 2 (by norm_num) (by norm_num) (by norm_num)
    · intro g hg _
      have := hmono 41 g (by omega)
      simpa [ramp] using this
    · simp [ramp]
    · intro g _ hg
      have := hmono g 82 (by omega)
      simpa [ramp] using this
    · simp [ramp]
  refine pixelLoopBinary32_cons ramp _ 123 2 0 1 42 _ 0 41 (by norm_num) (by norm_num)
    (by norm_num) ?_ ?_ h2 ?_ ⟨0, by norm_num, by norm_num, ?_⟩ ?_
    ⟨41, by norm_num, by norm_num, ?_⟩
  · intro g _ hg
    rcases Nat.lt_or_ge g 41 with h | h
    · exact lessBinary32_lit_lt g 1 (by norm_num) (by omega)
    · have : g = 41 := by omega
      subst this
      exact lessBinary32_edge
  · exact lessBinary32_lit_gt 42 1 (by norm_num) (by norm_num) (by norm_num)
  · intro g _ _
    simp [ramp]
  · simp [ramp]
  · intro g _ hg
    have := hmono g 41 (by omega)
    simpa [ramp] using this
  · simp [ramp]

theorem paint1DBinary32_1_41 (mem : Nat → ℚ) (lo0 hi0 lo1 hi1 : ℚ)
    (hlo0 : ∀ g, g < 42 → lo0 ≤ mem g) (hlo0a : ∃ g, g < 42 ∧ mem g = lo0)
    (hhi0 : ∀ g, g < 42 → mem g ≤ hi0) (hhi0a : ∃ g, g < 42 ∧ mem g = hi0)
    (hlo1 : ∀ g, g < 42 → lo1 ≤ mem (41 + g)) (hlo1a : ∃ g, g < 42 ∧ mem (41 + g) = lo1)
    (hhi1 : ∀ g, g < 42 → mem (41 + g) ≤ hi1) (hhi1a : ∃ g, g < 42 ∧ mem (41 + g) = hi1) :
    paint1DBinary32 41 (snapshotWidget 1 41 2 41 mem) false 2 41 41 =
      some ([ PaintCmd.save, PaintCmd.translate 0 25, PaintCmd.scale 1 (-25),
          PaintCmd.setPen (QColor.rgb 255 255 255), PaintCmd.drawLine 0 lo0 0 hi0,
          PaintCmd.restore,
          PaintCmd.save, PaintCmd.translate 0 75, PaintCmd.scale 1 (-25),
          PaintCmd.setPen (QColor.rgb 255 255 255), PaintCmd.drawLine 0 lo1 0 hi1,
          PaintCmd.restore ],
        List.range' 0 42 ++ List.range' 41 42) := by
  have t0 := trace_1_41 (channelRow (snapshotWidget 1 41 2 41 mem) 41 0) lo0 hi0
    (fun g hg => by simpa [channelRow, snapshotWidget] using hlo0 g hg)
    (by simpa [channelRow, snapshotWidget] using hlo0a)
    (fun g hg => by simpa [channelRow, snapshotWidget] using hhi0 g hg)
    (by simpa [channelRow, snapshotWidget] using hhi0a)
  have t1 := trace_1_41 (channelRow (snapshotWidget 1 41 2 41 mem) 41 1) lo1 hi1
    (fun g hg => by simpa [channelRow, snapshotWidget] using hlo1 g hg)
    (by simpa [channelRow, snapshotWidget] using hlo1a)
    (fun g hg => by simpa [channelRow, snapshotWidget] using hhi1 g hg)
    (by simpa [channelRow, snapshotWidget] using hhi1a)
  have hw : (snapshotWidget 1 41 2 41 mem).width = 1 := rfl
  have hav : (snapshotWidget 1 41 2 41 mem)._availableFrames = 41 := rfl
  have h1 : ¬ ((snapshotWidget 1 41 2 41 mem)._availableFrames < 2) := by rw [hav]; decide
  have h2 : ¬ (41 < 1) := by decide
  unfold paint1DBinary32
  rw [if_neg h1]
  show (if 41 < 1 then _ else
    runLoop (fun ch => bucketChannelBinary32 41 (snapshotWidget 1 41 2 41 mem) false 41 1
      (f32 (f32 ((1 : ℕ) : ℚ) / f32 ((41 : ℕ) : ℚ)))
      (yRatio1D (snapshotWidget 1 41 2 41 mem) false 2)
      (yHeight1D (snapshotWidget 1 41 2 41 mem) false 2) ch) 2 0) = _
  rw [if_neg h2, ppf_1_41]
  simp only [runLoop, bucketChannelBinary32, t0, t1]
  refine congrArg some (Prod.ext ?_ ?_)
  · simp only [bucketBlock, Bucket.line, yRatio1D, yHeight1D, yOrigin, channelColor,
      snapshotWidget, Widget.init, Widget.rect, List.map, Pass.bucket]
    norm_num
  · rfl

theorem paint1DBinary32_3_123 :
    paint1DBinary32 123 (snapshotWidget 3 123 1 512 ramp) false 1 512 123 =
      some ([ PaintCmd.save, PaintCmd.translate 0 50, PaintCmd.scale 1 (-50),
          PaintCmd.setPen (QColor.rgb 255 255 255), PaintCmd.drawLine 0 0 0 41,
          PaintCmd.drawLine 1 41 1 82, PaintCmd.drawLine 2 82 2 122, PaintCmd.restore ],
        List.range' 0 42 ++ List.range' 41 42 ++ List.range' 82 41) := by
  have hrow : channelRow (snapshotWidget 3 123 1 512 ramp) 512 0 = ramp := by
    funext f
    simp [channelRow, snapshotWidget]
  have t0 := trace_3_123
  rw [← hrow] at t0
  have hav : (snapshotWidget 3 123 1 512 ramp)._availableFrames = 123 := rfl
  have h1 : ¬ ((snapshotWidget 3 123 1 512 ramp)._availableFrames < 2) := by rw [hav]; decide
  have h2 : ¬ (123 < 3) := by decide
  unfold paint1DBinary32
  rw [if_neg h1]
  show (if 123 < 3 then _ else
    runLoop (fun ch => bucketChannelBinary32 123 (snapshotWidget 3 123 1 512 ramp) false 512 3
      (f32 (f32 ((3 : ℕ) : ℚ) / f32 ((123 : ℕ) : ℚ)))
      (yRatio1D (snapshotWidget 3 123 1 512 ramp) false 1)
      (yHeight1D (snapshotWidget 3 123 1 512 ramp) false 1) ch) 1 0) = _
  rw [if_neg h2, ppf_3_123]
  simp only [runLoop, bucketChannelBinary32, t0]
  refine congrArg some (Prod.ext ?_ ?_)
  · simp only [bucketBlock, Bucket.line, yRatio1D, yHeight1D, yOrigin, channelColor,
      snapshotWidget, Widget.init, Widget.rect, List.map, Pass.bucket]
    norm_num
  · rfl

/-! ## Bucket mode with the compiled test -/

theorem PassesOK_next_le (row : Nat → ℚ) (ppf : ℚ) (stop w n : Nat)
    (hlast : ∀ q, q < w → lessBinary32 ppf n q = false) :
    ∀ (passes : List Pass) (p f : Nat), PassesOK row ppf stop p f passes → f ≤ n →
      ∀ (j : Nat) (ps : Pass), passes[j]? = some ps → p + j + 1 < w → ps.bucket.next ≤ n := by
  intro passes
  induction passes with
  | nil =>
    intro p f _ _ j ps h
    simp at h
  | cons hd tl ih =>
    intro p f hok hfn j ps h hj
    obtain ⟨h1, h2, h3⟩ := hok
    have hhd : hd.bucket.next ≤ n := by
      by_contra hc
      obtain ⟨_, _, _, _, htrue, _⟩ := h1
      have := htrue n (by omega) (by omega)
      rw [hlast (p + 1) (by omega)] at this
      exact Bool.false_ne_true this
    cases j with
    | zero =>
      simp only [List.getElem?_cons_zero, Option.some.injEq] at h
      subst h
      exact hhd
    | succ j =>
      simp only [List.getElem?_cons_succ] at h
      exact ih (p + 1) hd.bucket.next h3 hhd j ps h (by omega)

/-- C1 (bucket mode, with the loop test as compiled): for `frameCount ≥ W ≥ 1`,
at most `2^22` frames and a snapshot of at least two frames, the bucket branch
returns once the inner loop may take `frameCount` steps, and emits per channel
one segment per pixel.  The segment of pixel `p` is drawn from `min` to `max`
of an iteration that is seeded with frame `first - 1`, where `first = 1` for
`p = 1` and otherwise `first` is the cursor at which the iteration of pixel
`p - 1` stopped, and that consumes the frames `first ≤ f < next`, `next` being
the first cursor at which the binary32 test `f * ppf < p` fails.  `min` and
`max` bound the sample of every frame below `frameCount` that the iteration
covers.  For every pixel but the last, `next ≤ frameCount` and `min`, `max` are
exactly the least and the greatest sample of the covered frames; the last
pixel covers every remaining frame below `frameCount`.  The binary32 test
agrees with the test `f * (W / frameCount) < p` in exact arithmetic for
`p * frameCount ≤ 2^22` except where `f * W = p * frameCount`. -/
theorem paint1D_bucket_extremes (fuel : Nat) (s : Widget) (overlapped : Bool)
    (chanCount maxFrames frameCount : Nat) (hav : 2 ≤ s._availableFrames)
    (hw : 1 ≤ s.width) (hfw : s.width ≤ frameCount) (hsize : frameCount ≤ 2 ^ 22)
    (hfuel : frameCount ≤ fuel) :
    ∃ (tr : Nat → List Bucket) (reads : List Nat),
      paint1DBinary32 fuel s overlapped chanCount maxFrames frameCount =
        some ((List.range chanCount).flatMap (fun ch =>
          bucketBlock s overlapped (yRatio1D s overlapped chanCount)
            (yHeight1D s overlapped chanCount) ch (tr ch)), reads) ∧
      (∀ ch, (tr ch).length = s.width ∧
        ∀ p, 1 ≤ p → p ≤ s.width →
          ∃ b, (tr ch)[p - 1]? = some b ∧ b.pixel = p ∧
            (p = 1 → b.first = 1) ∧
            (∀ c, (tr ch)[p]? = some c → c.first = b.next) ∧
            1 ≤ b.first ∧ b.first ≤ b.next ∧
            (∀ g, b.first ≤ g → g < b.next →
              lessBinary32 (f32 (f32 (s.width : ℚ) / f32 (frameCount : ℚ))) g p = true) ∧
            lessBinary32 (f32 (f32 (s.width : ℚ) / f32 (frameCount : ℚ))) b.next p = false ∧
            (∀ g, b.covers g → g < frameCount →
              b.min ≤ channelRow s maxFrames ch g ∧ channelRow s maxFrames ch g ≤ b.max) ∧
            (p < s.width → b.next ≤ frameCount ∧
              IsLeast {v | ∃ g, b.covers g ∧ v = channelRow s maxFrames ch g} b.min ∧
              IsGreatest {v | ∃ g, b.covers g ∧ v = channelRow s maxFrames ch g} b.max) ∧
            (p = s.width → ∀ g, b.first - 1 ≤ g → g < frameCount → b.covers g)) ∧
      ∀ f p, f < 2 ^ 24 → p * frameCount ≤ 2 ^ 22 → f * s.width ≠ p * frameCount →
        (lessBinary32 (f32 (f32 (s.width : ℚ) / f32 (frameCount : ℚ))) f p = true ↔
          (f : ℚ) * ((s.width : ℚ) / (frameCount : ℚ)) < (p : ℚ)) := by
  have hn24 : frameCount < 2 ^ 24 := lt_of_le_of_lt hsize (by norm_num)
  obtain ⟨tr, hrun, htr⟩ :=
    paint1DBinary32_bucket_eq fuel s overlapped chanCount maxFrames frameCount hav hw hfw hsize
      hfuel
  refine ⟨fun ch => (tr ch).map Pass.bucket, _, hrun, fun ch => ?_, fun f p hf hsmall hne => ?_⟩
  · obtain ⟨_, hlen, hok⟩ := htr ch
    refine ⟨by simp [hlen], fun p hp1 hpw => ?_⟩
    obtain ⟨ps, hget⟩ : ∃ ps, (tr ch)[p - 1]? = some ps :=
      ⟨_, List.getElem?_eq_getElem (by omega : p - 1 < (tr ch).length)⟩
    obtain ⟨hpass, hfirst, hchain⟩ := PassesOK_get _ _ _ (tr ch) 0 1 hok (p - 1) ps hget
    have hnext := PassesOK_next_le _ _ (frameCount + 1) s.width frameCount
      (fun q hq => lessBinary32_last s.width frameCount q (by omega) hfw hsize hq)
      (tr ch) 0 1 hok (by omega) (p - 1) ps hget
    have hpp : 0 + (p - 1) + 1 = p := by omega
    have hpp1 : p - 1 + 1 = p := by omega
    rw [hpp] at hpass hnext
    rw [hpp1] at hchain
    obtain ⟨hpix, h1, h2, _, htrue, hfalse, hall, hmin, hmax, _⟩ := hpass
    refine ⟨ps.bucket, by simp [hget], hpix, fun h => hfirst (by omega), ?_, h1, h2,
      htrue, hfalse, fun g hg _ => hall g hg, fun hlast => ⟨hnext hlast, ⟨hmin, ?_⟩, ⟨hmax, ?_⟩⟩,
      fun hlast g hg1 hg2 => ?_⟩
    · intro c hc
      rw [List.getElem?_map] at hc
      obtain ⟨pt, hpt, rfl⟩ := Option.map_eq_some'.1 hc
      exact hchain pt hpt
    · rintro v ⟨g, hg, rfl⟩
      exact (hall g hg).1
    · rintro v ⟨g, hg, rfl⟩
      exact (hall g hg).2
    · subst hlast
      have hge : frameCount ≤ ps.bucket.next := by
        by_contra hc
        have := lessBinary32_cover s.width frameCount ps.bucket.next hw hfw hsize (by omega)
        rw [hfalse] at this
        exact Bool.false_ne_true this
      unfold Bucket.covers
      omega
  · exact lessBinary32_exact s.width frameCount f p (by omega) hn24 (by omega) hf hsmall hne

/-- A 3 pixel wide widget holding 123 frames of the ramp meets the hypotheses
of `paint1D_bucket_extremes`; the iteration of pixel 1 starts at cursor 1. -/
theorem paint1D_bucket_extremes_witness :
    2 ≤ (snapshotWidget 3 123 1 512 ramp)._availableFrames ∧
      1 ≤ (snapshotWidget 3 123 1 512 ramp).width ∧
      (snapshotWidget 3 123 1 512 ramp).width ≤ 123 ∧ 123 ≤ 2 ^ 22 ∧
      ∃ (tr : Nat → List Bucket) (reads : List Nat),
        paint1DBinary32 123 (snapshotWidget 3 123 1 512 ramp) false 1 512 123 =
          some ((List.range 1).flatMap (fun ch =>
            bucketBlock (snapshotWidget 3 123 1 512 ramp) false
              (yRatio1D (snapshotWidget 3 123 1 512 ramp) false 1)
              (yHeight1D (snapshotWidget 3 123 1 512 ramp) false 1) ch (tr ch)), reads) ∧
        (tr 0).length = 3 ∧ ∃ b, (tr 0)[0]? = some b ∧ b.pixel = 1 ∧ b.first = 1 := by
  refine ⟨by decide, by decide, by decide, by norm_num, ?_⟩
  obtain ⟨tr, reads, h, hall, _⟩ :=
    paint1D_bucket_extremes 123 (snapshotWidget 3 123 1 512 ramp) false 1 512 123
      (by decide) (by decide) (by decide) (by norm_num) (le_refl _)
  obtain ⟨hlen, hpix⟩ := hall 0
  obtain ⟨b, hb, hp, hf, _⟩ := hpix 1 (le_refl _) (by decide)
  exact ⟨tr, reads, h, hlen, b, hb, hp, hf rfl⟩

/-- C1, the claim as stated fails on the compiled loop: 3 pixels, 123 frames
of the ramp (`row[f] = f`), so `ppf = 3/123` in exact arithmetic.  The sample
set the claim assigns to pixel 1, `row[0]` and the `row[f]` with `f ≥ 1` and
`0 ≤ f * ppf < 1`, has greatest element 40, yet the segment drawn for pixel 1
runs from 0 to 41: in binary32 the test `41 * ppf < 1` holds.  No frame at or
past `frameCount` is read. -/
theorem paint1D_bucket_tie_rounds_down :
    paint1DBinary32 123 (snapshotWidget 3 123 1 512 ramp) false 1 512 123 =
      some ([ PaintCmd.save, PaintCmd.translate 0 50, PaintCmd.scale 1 (-50),
          PaintCmd.setPen (QColor.rgb 255 255 255), PaintCmd.drawLine 0 0 0 41,
          PaintCmd.drawLine 1 41 1 82, PaintCmd.drawLine 2 82 2 122, PaintCmd.restore ],
        List.range' 0 42 ++ List.range' 41 42 ++ List.range' 82 41) ∧
      IsGreatest {v : ℚ | v = channelRow (snapshotWidget 3 123 1 512 ramp) 512 0 0 ∨
        ∃ f : ℕ, 1 ≤ f ∧ ((1 : ℕ) : ℚ) - 1 ≤ (f : ℚ) * ((3 : ℚ) / 123) ∧
          (f : ℚ) * ((3 : ℚ) / 123) < ((1 : ℕ) : ℚ) ∧
          v = channelRow (snapshotWidget 3 123 1 512 ramp) 512 0 f} 40 ∧
      (∀ i, i ∈ List.range' 0 42 ++ List.range' 41 42 ++ List.range' 82 41 → i < 123) := by
  refine ⟨paint1DBinary32_3_123, ⟨Or.inr ⟨40, by norm_num, by norm_num, by norm_num, ?_⟩, ?_⟩, ?_⟩
  · simp [channelRow, snapshotWidget, ramp]
  · rintro v (rfl | ⟨f, _, _, hlt, rfl⟩)
    · simp [channelRow, snapshotWidget, ramp]
    · have h41 : (f : ℚ) < 41 := by
        norm_num at hlt
        linarith
      have hf : f < 41 := by exact_mod_cast h41
      have hf40 : f ≤ 40 := by omega
      have : (f : ℚ) ≤ 40 := by exact_mod_cast hf40
      simpa [channelRow, snapshotWidget, ramp] using this
  · intro i hi
    simp only [List.mem_append, List.mem_range'_1] at hi
    omega

/-! ## Reads at `frameData[frameCount]` -/

theorem paint1DBinary32_ramp_41 :
    paint1DBinary32 41 (snapshotWidget 1 41 2 41 ramp) false 2 41 41 =
      some ([ PaintCmd.save, PaintCmd.translate 0 25, PaintCmd.scale 1 (-25),
          PaintCmd.setPen (QColor.rgb 255 255 255), PaintCmd.drawLine 0 0 0 41,
          PaintCmd.restore,
          PaintCmd.save, PaintCmd.translate 0 75, PaintCmd.scale 1 (-25),
          PaintCmd.setPen (QColor.rgb 255 255 255), PaintCmd.drawLine 0 41 0 82,
          PaintCmd.restore ],
        List.range' 0 42 ++ List.range' 41 42) := by
  refine paint1DBinary32_1_41 ramp 0 41 41 82 ?_ ?_ ?_ ?_ ?_ ?_ ?_ ?_
  · intro g _
    simp [ramp]
  · exact ⟨0, by norm_num, by simp [ramp]⟩
  · intro g hg
    have : g ≤ 41 := by omega
    have : (g : ℚ) ≤ 41 := by exact_mod_cast this
    simpa [ramp] using this
  · exact ⟨41, by norm_num, by simp [ramp]⟩
  · intro g _
    simp [ramp]
  · exact ⟨0, by norm_num, by simp [ramp]⟩
  · intro g hg
    have : 41 + g ≤ 82 := by omega
    have : ((41 + g : ℕ) : ℚ) ≤ 82 := by exact_mod_cast this
    simpa [ramp] using this
  · exact ⟨41, by norm_num, by norm_num [ramp]⟩

theorem rampBump_le (i : ℕ) (h : i ≤ 100) : rampBump i ≤ 100 := by
  unfold rampBump
  split_ifs
  · exact le_refl _
  · exact_mod_cast h

theorem paint1DBinary32_rampBump_41 :
    paint1DBinary32 41 (snapshotWidget 1 41 2 41 rampBump) false 2 41 41 =
      some ([ PaintCmd.save, PaintCmd.translate 0 25, PaintCmd.scale 1 (-25),
          PaintCmd.setPen (QColor.rgb 255 255 255), PaintCmd.drawLine 0 0 0 100,
          PaintCmd.restore,
          PaintCmd.save, PaintCmd.translate 0 75, PaintCmd.scale 1 (-25),
          PaintCmd.setPen (QColor.rgb 255 255 255), PaintCmd.drawLine 0 42 0 100,
          PaintCmd.restore ],
        List.range' 0 42 ++ List.range' 41 42) := by
  refine paint1DBinary32_1_41 rampBump 0 100 42 100 ?_ ?_ ?_ ?_ ?_ ?_ ?_ ?_
  · intro g _
    unfold rampBump
    split_ifs
    · norm_num
    · exact Nat.cast_nonneg g
  · exact ⟨0, by norm_num, by simp [rampBump]⟩
  · intro g hg
    exact rampBump_le g (by omega)
  · exact ⟨41, by norm_num, by simp [rampBump]⟩
  · intro g _
    unfold rampBump
    split_ifs with h
    · norm_num
    · have : 42 ≤ 41 + g := by omega
      exact_mod_cast this
  · exact ⟨1, by norm_num, by norm_num [rampBump]⟩
  · intro g hg
    exact rampBump_le (41 + g) (by omega)
  · exact ⟨0, by norm_num, by simp [rampBump]⟩

/-- C19, the reads of bucket mode leave the valid frames: a widget one pixel
wide showing 41 frames of a buffer of 2 channels with 41 frames each, so that
`_data` holds the 82 samples at offsets 0 to 81.  In binary32 the test
`41 * ppf < 1` holds, so the inner loop reads `frameData[41]`: the reads of
channel 0 are the offsets 0 to 41 and those of channel 1 the offsets 41 to 82.
Offset 82 is not of the form `ch * 41 + f` with `ch < 2` and `f < 41`; it lies
past the end of the buffer. -/
theorem paint1D_reads_past_snapshot :
    (paint1DBinary32 41 (snapshotWidget 1 41 2 41 ramp) false 2 41 41).map Prod.snd =
        some (List.range' 0 42 ++ List.range' 41 42) ∧
      82 ∈ List.range' 0 42 ++ List.range' 41 42 ∧
      (∀ ch f, ch < 2 → f < 41 → ch * 41 + f ≠ 82) ∧ 2 * 41 ≤ 82 := by
  refine ⟨?_, by decide, fun ch f hch hf => by omega, by decide⟩
  rw [paint1DBinary32_ramp_41]
  rfl

/-- C2, a drawn peak that no frame of the row has: the widget of
`paint1D_reads_past_snapshot` (one pixel, 41 frames, 2 channels of 41 frames,
sample `i` at offset `i`).  The greatest sample among the frames 0 to 40 of
channel 0 is 40 and that of channel 1 is 81, yet the single segment of channel 0
is drawn up to 41 and that of channel 1 up to 82: each maximum is the sample
read at `frameData[41]`, one past the last frame of the row. -/
theorem paint1D_peak_past_snapshot :
    (paint1DBinary32 41 (snapshotWidget 1 41 2 41 ramp) false 2 41 41).map Prod.fst =
        some [ PaintCmd.save, PaintCmd.translate 0 25, PaintCmd.scale 1 (-25),
          PaintCmd.setPen (QColor.rgb 255 255 255), PaintCmd.drawLine 0 0 0 41,
          PaintCmd.restore,
          PaintCmd.save, PaintCmd.translate 0 75, PaintCmd.scale 1 (-25),
          PaintCmd.setPen (QColor.rgb 255 255 255), PaintCmd.drawLine 0 41 0 82,
          PaintCmd.restore ] ∧
      IsGreatest {v : ℚ | ∃ k, k < 41 ∧
        v = channelRow (snapshotWidget 1 41 2 41 ramp) 41 0 k} 40 ∧
      IsGreatest {v : ℚ | ∃ k, k < 41 ∧
        v = channelRow (snapshotWidget 1 41 2 41 ramp) 41 1 k} 81 := by
  refine ⟨?_, ⟨⟨40, by norm_num, ?_⟩, ?_⟩, ⟨⟨40, by norm_num, ?_⟩, ?_⟩⟩
  · rw [paint1DBinary32_ramp_41]
    rfl
  · simp [channelRow, snapshotWidget, ramp]
  · rintro v ⟨k, hk, rfl⟩
    have h40 : k ≤ 40 := by omega
    have : (k : ℚ) ≤ 40 := by exact_mod_cast h40
    simpa [channelRow, snapshotWidget, ramp] using this
  · norm_num [channelRow, snapshotWidget, ramp]
  · rintro v ⟨k, hk, rfl⟩
    have h81 : 1 * 41 + k ≤ 81 := by omega
    have : ((1 * 41 + k : ℕ) : ℚ) ≤ 81 := by exact_mod_cast h81
    simpa [channelRow, snapshotWidget, ramp] using this

/-- C15, channel 0 depends on a sample of channel 1: two widgets, one pixel
wide and showing 41 frames of a buffer of 2 channels with 41 frames each, whose
samples differ at offset 41 only, which is frame 0 of channel 1 (value 41 in
the one, 100 in the other).  The first 41 samples of channel 0 agree, yet the
segment of channel 0 is drawn from 0 to 41 for the one widget and from 0 to 100
for the other: the inner loop of channel 0 reads `frameData[41]`. -/
theorem paint1D_channel_coupling :
    (∀ i, i ≠ 1 * 41 + 0 → rampBump i = ramp i) ∧
      (∀ f, f < 41 → channelRow (snapshotWidget 1 41 2 41 rampBump) 41 0 f =
        channelRow (snapshotWidget 1 41 2 41 ramp) 41 0 f) ∧
      (paint1DBinary32 41 (snapshotWidget 1 41 2 41 ramp) false 2 41 41).map Prod.fst =
        some [ PaintCmd.save, PaintCmd.translate 0 25, PaintCmd.scale 1 (-25),
          PaintCmd.setPen (QColor.rgb 255 255 255), PaintCmd.drawLine 0 0 0 41,
          PaintCmd.restore,
          PaintCmd.save, PaintCmd.translate 0 75, PaintCmd.scale 1 (-25),
          PaintCmd.setPen (QColor.rgb 255 255 255), PaintCmd.drawLine 0 41 0 82,
          PaintCmd.restore ] ∧
      (paint1DBinary32 41 (snapshotWidget 1 41 2 41 rampBump) false 2 41 41).map Prod.fst =
        some [ PaintCmd.save, PaintCmd.translate 0 25, PaintCmd.scale 1 (-25),
          PaintCmd.setPen (QColor.rgb 255 255 255), PaintCmd.drawLine 0 0 0 100,
          PaintCmd.restore,
          PaintCmd.save, PaintCmd.translate 0 75, PaintCmd.scale 1 (-25),
          PaintCmd.setPen (QColor.rgb 255 255 255), PaintCmd.drawLine 0 42 0 100,
          PaintCmd.restore ] := by
  refine ⟨fun i hi => ?_, fun f hf => ?_, ?_, ?_⟩
  · unfold rampBump ramp
    rw [if_neg (by omega)]
  · have h41 : ¬ (0 * 41 + f = 41) := by omega
    simp only [channelRow, snapshotWidget, rampBump, ramp]
    rw [if_neg h41]
  · rw [paint1DBinary32_ramp_41]
    rfl
  · rw [paint1DBinary32_rampBump_41]
    rfl

end QcScopeShm
